import Mathlib

/-!
Verification of the social-archiver extension core against its specification.

The TypeScript sources are shallowly embedded: strings are Lean strings
(manipulated as lists of characters), JavaScript numbers arising from
parseFloat are modelled exactly as integer numerators over power-of-ten
denominators, NaN-producing paths return Option.none, and effectful
operations (network fetch, the File System Access API) are modelled by
explicit oracles and state passing.  Loops whose termination is enforced
in the source by an explicit counter cap are embedded with a fuel
argument large enough that the cap always fires first.
-/

/-- Whitespace class of JavaScript regexp backslash-s and of String.prototype.trim
(ASCII whitespace, NBSP, Unicode space separators, line separators, BOM). -/
def isJsWs (c : Char) : Bool :=
  c.toNat = 32 || c.toNat = 9 || c.toNat = 10 || c.toNat = 13 ||
  c.toNat = 0x0B || c.toNat = 0x0C || c.toNat = 0xA0 || c.toNat = 0x1680 ||
  (0x2000 ≤ c.toNat && c.toNat ≤ 0x200A) ||
  c.toNat = 0x2028 || c.toNat = 0x2029 || c.toNat = 0x202F ||
  c.toNat = 0x205F || c.toNat = 0x3000 || c.toNat = 0xFEFF

/-- Drop trailing characters satisfying p (helper for trim-like operations). -/
def dropEndWhile (p : Char → Bool) (l : List Char) : List Char :=
  (l.reverse.dropWhile p).reverse

/-- Model of JavaScript String.prototype.trim on a character list. -/
def jsTrimList (l : List Char) : List Char :=
  dropEndWhile isJsWs (l.dropWhile isJsWs)

/-- ASCII lowercasing, as applied by toLowerCase to the inputs that occur here. -/
def toLowerAscii (c : Char) : Char :=
  if 'A' ≤ c && c ≤ 'Z' then Char.ofNat (c.toNat + 32) else c

/-- Numeric value of a list of decimal digit characters (empty list gives 0). -/
def digitsToNat (l : List Char) : Nat :=
  l.foldl (fun a c => 10 * a + (c.toNat - '0'.toNat)) 0

/-- Remove the first occurrence of a character, as one-shot JavaScript
String.prototype.replace with a single-character pattern does. -/
def removeFirst (c : Char) : List Char → List Char
  | [] => []
  | x :: xs => if x = c then xs else x :: removeFirst c xs

/-- Does the list contain the character (String.prototype.includes with a
single-character needle). -/
def containsChar (l : List Char) (c : Char) : Bool :=
  l.any (· = c)

/-- Replace every maximal run of characters satisfying p by the single
character rep, keeping all other characters (the global regexp replace of
a one-or-more character class).  The flag records whether the previous
character was inside a run. -/
def collapseRunsGo (p : Char → Bool) (rep : Char) : Bool → List Char → List Char
  | _, [] => []
  | inRun, c :: cs =>
    if p c then
      if inRun then collapseRunsGo p rep true cs
      else rep :: collapseRunsGo p rep true cs
    else c :: collapseRunsGo p rep false cs

/-- Replace every maximal run of characters satisfying p by rep. -/
def collapseRuns (p : Char → Bool) (rep : Char) (l : List Char) : List Char :=
  collapseRunsGo p rep false l

/-- Boolean string prefix test (String.prototype.startsWith). -/
def strStartsWith (s pre : String) : Bool :=
  pre.data.isPrefixOf s.data

/-- Boolean string suffix test (String.prototype.endsWith). -/
def jsEndsWith (s suf : String) : Bool :=
  suf.data.isSuffixOf s.data

/-- Does the needle occur contiguously inside the haystack. -/
def isInfixOfB (needle : List Char) : List Char → Bool
  | [] => needle.isEmpty
  | h :: t => needle.isPrefixOf (h :: t) || isInfixOfB needle t

/-- Boolean substring test (String.prototype.includes). -/
def strContainsSub (s sub : String) : Bool :=
  isInfixOfB sub.data s.data

/-- Join a list of strings with a separator (joinSep). -/
def joinSep (sep : String) : List String → String
  | [] => ""
  | [a] => a
  | a :: b :: rest => a ++ sep ++ joinSep sep (b :: rest)

/-- Ten to a natural power, as an integer. -/
def pow10 (k : Nat) : ℤ :=
  ((10 ^ k : Nat) : ℤ)

/-- Exact value of a finite JavaScript number: numerator over ten to the
denominator exponent. -/
structure JsNum where
  num : ℤ
  den10 : Nat
deriving DecidableEq

/-- Rational value denoted by a JsNum (specification-level view). -/
def JsNum.val (x : JsNum) : ℚ :=
  (x.num : ℚ) / (10 : ℚ) ^ x.den10

/-- Multiplication of a parsed number by an integer constant. -/
def JsNum.mulInt (x : JsNum) (k : ℤ) : JsNum :=
  ⟨x.num * k, x.den10⟩

/-- Model of JavaScript Math.round on an exact value: round half toward
positive infinity, computed by floor division. -/
def jsRound (x : JsNum) : ℤ :=
  Int.fdiv (2 * x.num + pow10 x.den10) (2 * pow10 x.den10)

/-- Exponent part accepted by parseFloat after the mantissa: letter e or E,
an optional sign, then at least one digit; anything else contributes
exponent zero (parseFloat stops at the longest valid prefix of the input). -/
def parseExp (l : List Char) : Int :=
  match l with
  | c :: rest =>
    if c = 'e' || c = 'E' then
      match rest with
      | '+' :: r2 => let d := r2.takeWhile Char.isDigit
                     if d.isEmpty then 0 else (digitsToNat d : Int)
      | '-' :: r2 => let d := r2.takeWhile Char.isDigit
                     if d.isEmpty then 0 else -(digitsToNat d : Int)
      | r2 => let d := r2.takeWhile Char.isDigit
              if d.isEmpty then 0 else (digitsToNat d : Int)
    else 0
  | [] => 0

/-- Assemble a JsNum from sign, integer digits, fraction digits and exponent. -/
def mkJsNum (sign : ℤ) (ip fp : List Char) (e : ℤ) : JsNum :=
  let n0 : ℤ := sign * ((digitsToNat ip : ℤ) * pow10 fp.length + (digitsToNat fp : ℤ))
  if 0 ≤ e then ⟨n0 * pow10 e.toNat, fp.length⟩
  else ⟨n0, fp.length + (-e).toNat⟩

/-- Model of JavaScript parseFloat on the longest valid numeric prefix:
optional leading whitespace, optional sign, then either digits with an
optional fraction or a bare fraction, with an optional exponent.
Returns none for NaN (no valid numeric prefix).  The value is kept exact;
the double-precision representation error of the engine is below the
granularity any claim here depends on. -/
def parseFloatJS (l0 : List Char) : Option JsNum :=
  let l1 := l0.dropWhile isJsWs
  let sign : ℤ := if l1.head? = some '-' then -1 else 1
  let l2 := if l1.head? = some '+' ∨ l1.head? = some '-' then l1.tail else l1
  let ip := l2.takeWhile Char.isDigit
  let r1 := l2.dropWhile Char.isDigit
  if ip.isEmpty then
    if r1.head? = some '.' then
      let r2 := r1.tail
      let fp := r2.takeWhile Char.isDigit
      let r3 := r2.dropWhile Char.isDigit
      if fp.isEmpty then none
      else some (mkJsNum sign [] fp (parseExp r3))
    else none
  else
    if r1.head? = some '.' then
      let r2 := r1.tail
      let fp := r2.takeWhile Char.isDigit
      let r3 := r2.dropWhile Char.isDigit
      some (mkJsNum sign ip fp (parseExp r3))
    else some (mkJsNum sign ip [] (parseExp r1))

/-- Model of parseInt followed by logical-or-zero, applied to a string that
contains only digits and dots: the leading digit run is the value and an
empty leading run (NaN) collapses to 0. -/
def parseIntOrZero (l : List Char) : ℤ :=
  (digitsToNat (l.takeWhile Char.isDigit) : ℤ)

/-- Embedding of BaseParser.parseEngagementNumber.  Empty input is falsy
and returns 0; the trimmed lowercased text is tested for a letter k
anywhere (then the first k is removed, the remainder parseFloat-ed,
multiplied by 1000 and rounded), then likewise for m with 1000000;
otherwise every character except digits and dots is stripped and the
remainder given to parseInt, with 0 for NaN.  The NaN value that
Math.round propagates from an unparsable mantissa is modelled as none. -/
def parseEngagementNumber (text : String) : Option ℤ :=
  if text.data.isEmpty then some 0
  else
    let cleaned := (jsTrimList text.data).map toLowerAscii
    if containsChar cleaned 'k' then
      (parseFloatJS (removeFirst 'k' cleaned)).map (fun q => jsRound (q.mulInt 1000))
    else if containsChar cleaned 'm' then
      (parseFloatJS (removeFirst 'm' cleaned)).map (fun q => jsRound (q.mulInt 1000000))
    else
      some (parseIntOrZero (cleaned.filter (fun c => c.isDigit || c = '.')))

/-- Embedding of MarkdownConverter.generateTitle: trim and collapse every
whitespace run of the content to a single space, fall back to a placeholder
when nothing remains, take the text up to the first newline (none can
remain after the collapse), and truncate to maxLength characters with a
trailing trim and an appended ellipsis when the text is longer. -/
def generateTitle (content : String) (maxLength : Nat) : String :=
  let cleaned := collapseRuns isJsWs ' ' (jsTrimList content.data)
  if cleaned.length = 0 then "Untitled Post"
  else
    let firstLine := cleaned.takeWhile (fun c => !(c = '\n'))
    if maxLength < firstLine.length then
      String.mk (jsTrimList (firstLine.take maxLength) ++ ['.', '.', '.'])
    else String.mk firstLine

/-- Title computation as the amended claim describes it: the whole
whitespace-collapsed text (line structure does not survive the collapse),
the placeholder for effectively empty content, truncation to maxLength
characters with a trailing trim and an ellipsis marker appended exactly
when the collapsed text is longer than maxLength. -/
def generateTitleSpec (content : String) (maxLength : Nat) : String :=
  let cleaned := collapseRuns isJsWs ' ' (jsTrimList content.data)
  if cleaned.length = 0 then "Untitled Post"
  else if maxLength < cleaned.length then
    String.mk (jsTrimList (cleaned.take maxLength) ++ ['.', '.', '.'])
  else String.mk cleaned

/-- Characters removed by both filename sanitizers: the nine
filesystem-reserved punctuation characters and the control range. -/
def fsInvalidChar (c : Char) : Bool :=
  c = '<' || c = '>' || c = ':' || c = '"' || c = '/' || c = '\\' ||
  c = '|' || c = '?' || c = '*' || c.toNat ≤ 0x1F

/-- Embedding of MarkdownConverter.sanitizeFilename: remove invalid and
control characters, replace whitespace runs by a hyphen, strip one trailing
run of dots, truncate to 50 characters, and trim. -/
def mcSanitizeFilename (s : String) : String :=
  let s1 := s.data.filter (fun c => !(fsInvalidChar c))
  let s2 := collapseRuns isJsWs '-' s1
  let s3 := dropEndWhile (fun c => c = '.') s2
  let s4 := s3.take 50
  String.mk (jsTrimList s4)

/-- Characters the FileNameGenerator additionally replaces by hyphens. -/
def fngProblematicChar (c : Char) : Bool :=
  c = '#' || c = '%' || c = '&' || c = Char.ofNat 0x7B || c = Char.ofNat 0x7D ||
  c = '~' || c = '$' || c = Char.ofNat 0x27 || c = Char.ofNat 0x60 ||
  c = '!' || c = '@' || c = '+'

/-- Embedding of FileNameGenerator.sanitize: remove invalid characters,
replace problematic characters by hyphens, collapse whitespace-or-hyphen
runs to a single space, trim, and strip leading and trailing hyphen runs. -/
def fngSanitize (s : String) : String :=
  let s1 := s.data.filter (fun c => !(fsInvalidChar c))
  let s2 := s1.map (fun c => if fngProblematicChar c then '-' else c)
  let s3 := collapseRuns (fun c => isJsWs c || c = '-') ' ' s2
  let s4 := jsTrimList s3
  let s5 := s4.dropWhile (fun c => c = '-')
  String.mk (dropEndWhile (fun c => c = '-') s5)

/-- Tag of a line-terminator character, which the dot of the filename
extension regexp cannot match. -/
def isLineTerm (c : Char) : Bool :=
  c = '\n' || c = '\r' || c.toNat = 0x2028 || c.toNat = 0x2029

/-- Position of the last dot of the list, if any. -/
def lastDotPos (l : List Char) : Option Nat :=
  (l.reverse.findIdx? (fun c => c = '.')).map (fun k => l.length - 1 - k)

/-- Embedding of the FileSaver filename split: the anchored regexp with a
lazy nonempty base and an optional dot-plus-nondots extension captures the
segment from the last dot as the extension exactly when that dot is not the
first character, something follows it, and the base contains no line
terminator (dot does not match those); in every other case the whole name
is the base and the extension is empty. -/
def splitExtension (s : String) : String × String :=
  match lastDotPos s.data with
  | some p =>
    if 1 ≤ p && p + 1 < s.data.length && !((s.data.take p).any isLineTerm) then
      (String.mk (s.data.take p), String.mk (s.data.drop p))
    else (s, "")
  | none => (s, "")

/-- Candidate filename built by the auto-rename loop for counter n. -/
def mkCandidate (base ext : String) (n : Nat) : String :=
  base ++ " (" ++ toString n ++ ")" ++ ext

/-- Loop body of FileSaver.generateUniqueFilename over an existence oracle:
while the current name exists, build the next candidate from the counter,
increment it, and throw (none) once the counter passes 1000.  The fuel is
1000, strictly more than the 999 iterations the counter cap permits, so the
fuel-exhausted arm is unreachable. -/
def genGo (ex : String → Bool) (base ext : String) :
    Nat → String → Nat → Option String
  | 0, _, _ => none
  | fuel + 1, name, counter =>
    if ex name then
      let newName := mkCandidate base ext counter
      if counter + 1 > 1000 then none
      else genGo ex base ext fuel newName (counter + 1)
    else some name

/-- Embedding of FileSaver.generateUniqueFilename: none models the thrown
could-not-generate error. -/
def generateUniqueFilename (ex : String → Bool) (orig : String) : Option String :=
  let be := splitExtension orig
  genGo ex be.1 be.2 1000 orig 1

/-- Embedding of FileSaver.saveFile over an existence oracle: fail when the
name exists and overwrite is off, otherwise report the stored path and add
the name to the directory state.  The write itself is abstracted as
succeeding. -/
def saveFile (ex : String → Bool) (filename : String) (overwrite : Bool) :
    Option String × (String → Bool) :=
  if ex filename && !overwrite then (none, ex)
  else (some filename, fun s => s = filename || ex s)

/-- Embedding of FileSaver.saveFileWithAutoRename: save directly when the
name is unused, otherwise save under the generated unique name; a thrown
unique-name failure is caught and reported as an error result (none). -/
def saveFileWithAutoRename (ex : String → Bool) (filename : String) :
    Option String × (String → Bool) :=
  if !(ex filename) then saveFile ex filename false
  else
    match generateUniqueFilename ex filename with
    | some u => saveFile ex u false
    | none => (none, ex)

/-- Outcome of one download attempt of MediaDownloader.downloadMedia:
whether the direct fetch produced a blob, whether its failure was
classified as blocked by the cross-origin policy, and whether the
background fallback produced a blob. -/
structure AttemptOutcome where
  directOk : Bool
  corsBlocked : Bool
  bgOk : Bool

/-- An attempt succeeds when the direct fetch succeeds, or when it is
classified cors-blocked and the background fallback succeeds. -/
def attemptOk (a : AttemptOutcome) : Bool :=
  a.directOk || (a.corsBlocked && a.bgOk)

/-- Loop of MediaDownloader.downloadMedia over per-attempt outcomes,
indexed from attempt 0 as in the source: before every attempt except the
first, a delay of 1000 times two to the attempt-index-minus-one
milliseconds is inserted.  Returns overall success, the inserted delays in
order, and the number of attempts made. -/
def downloadMediaGo (env : Nat → AttemptOutcome) (attempt : Nat) :
    Nat → Bool × List Nat × Nat
  | 0 => (false, [], 0)
  | r + 1 =>
    let ds : List Nat := if attempt = 0 then [] else [1000 * 2 ^ (attempt - 1)]
    if attemptOk (env attempt) then (true, ds, 1)
    else
      let rest := downloadMediaGo env (attempt + 1) r
      (rest.1, ds ++ rest.2.1, rest.2.2 + 1)

/-- Embedding of MediaDownloader.downloadMedia with a given retry budget
(the source default is 3). -/
def downloadMedia (env : Nat → AttemptOutcome) (retryAttempts : Nat) :
    Bool × List Nat × Nat :=
  downloadMediaGo env 0 retryAttempts

/-- Wave decomposition of the batch loop: slices of size concurrency taken
from the front until the list is exhausted.  The fuel argument makes the
recursion structural; it is the list length, which suffices whenever the
concurrency is positive (with concurrency zero the source loop would not
terminate). -/
def chunkListAux (c : Nat) : Nat → List String → List (List String)
  | _, [] => []
  | 0, l => [l]
  | fuel + 1, l => l.take c :: chunkListAux c fuel (l.drop c)

/-- Waves of at most c urls, in order. -/
def chunkList (c : Nat) (l : List String) : List (List String) :=
  chunkListAux c l.length l

/-- Insertion-ordered map as JavaScript Map behaves: set overwrites in
place when the key is present and appends otherwise. -/
def jsMapSet : List (String × Bool) → String → Bool → List (String × Bool)
  | [], k, v => [(k, v)]
  | (k0, v0) :: rest, k, v =>
    if k0 = k then (k0, v) :: rest else (k0, v0) :: jsMapSet rest k v

/-- Lookup in the insertion-ordered map. -/
def jsMapGet : List (String × Bool) → String → Option Bool
  | [], _ => none
  | (k0, v0) :: rest, k => if k0 = k then some v0 else jsMapGet rest k

/-- Mutable state threaded through the batch download loop. -/
structure BatchState where
  results : List (String × Bool)
  succ : Nat
  fail : Nat

/-- Per-item step of downloadBatch: run downloadMedia for the url with the
default retry budget, record the result under the url, and bump one of the
two counters. -/
def processItem (fetch : String → Nat → AttemptOutcome) (st : BatchState)
    (url : String) : BatchState :=
  let r := (downloadMedia (fetch url) 3).1
  { results := jsMapSet st.results url r
    succ := st.succ + (if r then 1 else 0)
    fail := st.fail + (if r then 0 else 1) }

/-- One wave of downloadBatch.  The items of a wave run concurrently in the
source, but each increments the counters and writes its own key exactly
once, so the aggregate state is that of processing them in order. -/
def processWave (fetch : String → Nat → AttemptOutcome) (st : BatchState)
    (wave : List String) : BatchState :=
  wave.foldl (processItem fetch) st

/-- Result record of MediaDownloader.downloadBatch. -/
structure BatchResult where
  success : Bool
  results : List (String × Bool)
  successCount : Nat
  failureCount : Nat

/-- Embedding of MediaDownloader.downloadBatch: proceed wave by wave and
declare overall success exactly when no item failed. -/
def downloadBatch (fetch : String → Nat → AttemptOutcome) (concurrency : Nat)
    (urls : List String) : BatchResult :=
  let final := (chunkList concurrency urls).foldl (processWave fetch) ⟨[], 0, 0⟩
  ⟨final.fail = 0, final.results, final.succ, final.fail⟩

/-- The closed platform enum. -/
inductive Platform
  | facebook
  | instagram
  | linkedin
deriving DecidableEq

/-- String value of the platform enum member. -/
def platformStr : Platform → String
  | .facebook => "facebook"
  | .instagram => "instagram"
  | .linkedin => "linkedin"

/-- Embedding of getPlatformDisplayName on the closed enum. -/
def getPlatformDisplayName : Platform → String
  | .facebook => "Facebook"
  | .instagram => "Instagram"
  | .linkedin => "LinkedIn"

/-- Calendar date as the JavaScript Date getters expose it: full year,
zero-based month, day of month. -/
structure JsDate where
  year : Nat
  month0 : Nat
  day : Nat
deriving DecidableEq

/-- Model of padStart(2, zero) on the rendered number. -/
def padStart2Zero (s : String) : String :=
  if 2 ≤ s.length then s else if s.length = 1 then "0" ++ s else "00" ++ s

/-- Path segments built by FolderManager.ensureFolderStructure: the fixed
root folder, the platform display name, the year, the two-digit month. -/
def folderPathSegments (platform : Platform) (date : JsDate) : List String :=
  ["Social Archive", getPlatformDisplayName platform,
   toString date.year, padStart2Zero (toString (date.month0 + 1))]

/-- Get-or-create of one directory path in the directory-set state
(getDirectoryHandle with create true): idempotent insertion. -/
def getOrCreateFolder (dirs : List (List String)) (path : List String) :
    List (List String) :=
  if path ∈ dirs then dirs else dirs ++ [path]

/-- Sequential descent of ensureFolderStructure: get-or-create each
segment below the current path. -/
def ensureGo (dirs : List (List String)) (cur : List String) :
    List String → List (List String) × List String
  | [] => (dirs, cur)
  | seg :: rest => ensureGo (getOrCreateFolder dirs (cur ++ [seg])) (cur ++ [seg]) rest

/-- Embedding of FolderManager.ensureFolderStructure: create the hierarchy
for the platform and date below the vault root and report the joined path
(the handle is the final path; creation is idempotent). -/
def ensureFolderStructure (dirs : List (List String)) (platform : Platform)
    (date : JsDate) : List (List String) × String :=
  let segs := folderPathSegments platform date
  let r := ensureGo dirs [] segs
  (r.1, joinSep "/" segs)

/-- Lowercasing of a whole string. -/
def lowerStr (s : String) : String :=
  String.mk (s.data.map toLowerAscii)

/-- Platform domains tested by detectPlatform. -/
def domainOf : Platform → String
  | .facebook => "facebook.com"
  | .instagram => "instagram.com"
  | .linkedin => "linkedin.com"

/-- Hostname branch of detectPlatform: the lowercased hostname matches a
platform when it equals the domain or ends with a dot followed by it. -/
def detectPlatformFromHostname (hostname : String) : Option Platform :=
  let h := lowerStr hostname
  if h = "facebook.com" ∨ jsEndsWith h ".facebook.com" = true then some .facebook
  else if h = "instagram.com" ∨ jsEndsWith h ".instagram.com" = true then some .instagram
  else if h = "linkedin.com" ∨ jsEndsWith h ".linkedin.com" = true then some .linkedin
  else none

/-- Catch branch of detectPlatform: plain substring matching on the raw
input when URL parsing failed. -/
def detectPlatformFallback (url : String) : Option Platform :=
  if strContainsSub url "facebook.com" then some .facebook
  else if strContainsSub url "instagram.com" then some .instagram
  else if strContainsSub url "linkedin.com" then some .linkedin
  else none

/-- Embedding of detectPlatform.  The URL constructor is abstracted by the
optional parsed hostname: some h embeds a successful parse with hostname h
and none embeds the thrown parse error that selects the fallback. -/
def detectPlatform (url : String) (parsedHostname : Option String) : Option Platform :=
  match parsedHostname with
  | some h => detectPlatformFromHostname h
  | none => detectPlatformFallback url

/-- Specification-side hostname match: equal to the domain, or ending with
a dot followed by the domain, after lowercasing. -/
@[reducible]
def hostMatches (h d : String) : Prop :=
  lowerStr h = d ∨ jsEndsWith (lowerStr h) ("." ++ d) = true

/-- Media kind of a parsed media item. -/
inductive MType
  | image
  | video
deriving DecidableEq

/-- One media item of a parsed post. -/
structure MediaItem where
  mtype : MType
  url : String
  thumbnail : Option String
deriving DecidableEq

/-- Engagement metrics of a parsed post (fields optional as in the source). -/
structure Engagement where
  likes : Option Nat
  comments : Option Nat
  shares : Option Nat
  views : Option Nat
deriving DecidableEq

/-- Canonical parsed post record (ParsedPostData). -/
structure PostData where
  id : String
  platform : Platform
  authorName : String
  contentText : String
  timestampParsed : Option JsDate
  media : List MediaItem
  urlPost : String
  urlCanonical : Option String
  engagement : Option Engagement
deriving DecidableEq

/-- Media reference passed to the markdown converter: only built for media
that was downloaded and stored. -/
structure MediaReference where
  rtype : MType
  filename : String
  originalUrl : String
  caption : Option String
deriving DecidableEq

/-- Environment of the converter: the formatted archival instant, the
formatter for parsed timestamps and the current date (both stand for the
date-fns format calls and the system clock). -/
structure ConvertEnv where
  archivedAt : String
  formatTs : JsDate → String
  nowDate : JsDate

/-- Frontmatter record generated for a post. -/
structure MarkdownFrontmatter where
  platform : Platform
  archived : String
  url : String
  author : String
  timestamp : Option String
  mediaCount : Option Nat
  hasVideo : Option Bool

/-- Embedding of MarkdownConverter.generateFrontmatter.  The JavaScript
or-else on the canonical url also falls through on an empty string. -/
def generateFrontmatter (env : ConvertEnv) (post : PostData) : MarkdownFrontmatter :=
  { platform := post.platform
    archived := env.archivedAt
    url := match post.urlCanonical with
           | some c => if c = "" then post.urlPost else c
           | none => post.urlPost
    author := post.authorName
    timestamp := post.timestampParsed.map env.formatTs
    mediaCount := if 0 < post.media.length then some post.media.length else none
    hasVideo := if 0 < post.media.length then
        some (post.media.any (fun m => m.mtype = .video))
      else none }

/-- Embedding of MarkdownConverter.escapeYAMLString. -/
def escapeYAMLString (s : String) : String :=
  String.mk (s.data.flatMap (fun c =>
    if c = '"' then ['\\', '"'] else if c = '\n' then ['\\', 'n'] else [c]))

/-- Embedding of MarkdownConverter.formatFrontmatterYAML. -/
def formatFrontmatterYAML (fm : MarkdownFrontmatter) : String :=
  joinSep "\n"
    (["---",
      "platform: " ++ platformStr fm.platform,
      "archived: " ++ fm.archived,
      "url: \"" ++ escapeYAMLString fm.url ++ "\"",
      "author: \"" ++ escapeYAMLString fm.author ++ "\""]
     ++ (match fm.timestamp with
         | some t => ["timestamp: " ++ t]
         | none => [])
     ++ (match fm.mediaCount with
         | some n => ["media_count: " ++ toString n]
         | none => [])
     ++ (match fm.hasVideo with
         | some b => ["has_video: " ++ (if b then "true" else "false")]
         | none => [])
     ++ ["---"])

/-- Character class escaped by formatContentPreserved (backslash, backtick,
asterisk, underscore, braces, brackets, parentheses, hash, plus, minus,
dot, bang, pipe). -/
def isMdSpecial (c : Char) : Bool :=
  c = '\\' || c = Char.ofNat 0x60 || c = '*' || c = '_' ||
  c = Char.ofNat 0x7B || c = Char.ofNat 0x7D || c = '[' || c = ']' ||
  c = '(' || c = ')' || c = '#' || c = '+' || c = '-' || c = '.' ||
  c = '!' || c = '|'

/-- Embedding of MarkdownConverter.formatContentPreserved: escape the
special characters except the hash (the at-sign arm of the source callback
is dead since the class does not contain it), apply the hashtag rewrite
(the identity replacement), and expand newlines to hard line breaks. -/
def formatContentPreserved (text : String) : String :=
  let escaped := text.data.flatMap (fun c =>
    if isMdSpecial c then (if c = '#' then [c] else ['\\', c]) else [c])
  String.mk (escaped.flatMap (fun c => if c = '\n' then [' ', ' ', '\n'] else [c]))

/-- Embedding of MarkdownConverter.formatContentSimple. -/
def formatContentSimple (text : String) : String :=
  String.mk (jsTrimList text.data)

/-- Render of the value to one decimal place (toFixed(1) with half-up
rounding; the sub-half-ulp noise of the double quotient is abstracted). -/
def toFixed1 (num den : Nat) : String :=
  let t := (num * 10 * 2 + den) / (2 * den)
  toString (t / 10) ++ "." ++ toString (t % 10)

/-- Embedding of MarkdownConverter.formatNumber: K and M abbreviation at
the thousand and million thresholds, one decimal place. -/
def formatNumber (num : Nat) : String :=
  if 1000000 ≤ num then toFixed1 num 1000000 ++ "M"
  else if 1000 ≤ num then toFixed1 num 1000 ++ "K"
  else toString num

/-- Lines pushed for the defined engagement fields. -/
def engagementLines (m : Engagement) : List String :=
  (match m.likes with
   | some n => ["❤️ Likes: " ++ formatNumber n]
   | none => [])
  ++ (match m.comments with
      | some n => ["💬 Comments: " ++ formatNumber n]
      | none => [])
  ++ (match m.shares with
      | some n => ["🔄 Shares: " ++ formatNumber n]
      | none => [])
  ++ (match m.views with
      | some n => ["👁️ Views: " ++ formatNumber n]
      | none => [])

/-- Embedding of MarkdownConverter.formatEngagementMetrics. -/
def formatEngagementMetrics (m : Engagement) : String :=
  joinSep "\n" ("\n## Engagement\n" :: engagementLines m)

/-- Embedding of MarkdownConverter.createWikiLink: images and videos both
embed with the bang-bracket syntax under the relative attachments path. -/
def createWikiLink (media : MediaReference) : String :=
  let path := "attachments/" ++ media.filename
  match media.rtype with
  | .image => "![[" ++ path ++ "]]"
  | .video => "![[" ++ path ++ "]]"

/-- Lines of the media section body: one wiki link per reference, followed
by an italicized caption line when a caption was captured. -/
def mediaRefLines (refs : List MediaReference) : List String :=
  refs.flatMap (fun media =>
    createWikiLink media ::
      (match media.caption with
       | some c => ["*" ++ c ++ "*\n"]
       | none => []))

/-- Embedding of MarkdownConverter.formatMediaReferences. -/
def formatMediaReferences (refs : List MediaReference) : String :=
  joinSep "\n" ("\n## Media\n" :: mediaRefLines refs)

/-- Four-digit year rendering of the date-fns pattern. -/
def padStart4Zero (s : String) : String :=
  if 4 ≤ s.length then s
  else String.mk (List.replicate (4 - s.length) '0') ++ s

/-- Rendering of the date-fns yyyy-MM-dd pattern. -/
def formatDateYMD (d : JsDate) : String :=
  padStart4Zero (toString d.year) ++ "-" ++ padStart2Zero (toString (d.month0 + 1))
    ++ "-" ++ padStart2Zero (toString d.day)

/-- Embedding of MarkdownConverter.generateFilename: date, sanitized
author, sanitized title, joined by spaced hyphens, with the markdown
extension. -/
def mcGenerateFilename (env : ConvertEnv) (post : PostData) (title : String) : String :=
  let dateStr := formatDateYMD (post.timestampParsed.getD env.nowDate)
  dateStr ++ " - " ++ mcSanitizeFilename post.authorName ++ " - "
    ++ mcSanitizeFilename title ++ ".md"

/-- Parts list of the assembled markdown document, in order: frontmatter,
blank, title heading, blank, content, blank, then the media and engagement
sections each followed by a blank when nonempty. -/
def assembleParts (frontYaml title content mediaSection engagementSection : String) :
    List String :=
  [frontYaml, "", "# " ++ title, "", content, ""]
  ++ (if mediaSection = "" then [] else [mediaSection, ""])
  ++ (if engagementSection = "" then [] else [engagementSection, ""])

/-- Parts of the document the converter emits for a post and the media
references that were actually persisted. -/
def convertParts (env : ConvertEnv) (post : PostData) (mediaReferences : List MediaReference)
    (includeEngagement includeMediaLinks preserveFormatting : Bool)
    (maxTitleLength : Nat) : List String :=
  let title := generateTitle post.contentText maxTitleLength
  let fm := generateFrontmatter env post
  let content := if preserveFormatting then formatContentPreserved post.contentText
                 else formatContentSimple post.contentText
  let engagementSection :=
    if includeEngagement then
      match post.engagement with
      | some m => formatEngagementMetrics m
      | none => ""
    else ""
  let mediaSection :=
    if includeMediaLinks && decide (0 < mediaReferences.length) then
      formatMediaReferences mediaReferences
    else ""
  assembleParts (formatFrontmatterYAML fm) title content mediaSection engagementSection

/-- Result record of MarkdownConverter.convert. -/
structure ConvertResult where
  success : Bool
  markdown : Option String
  title : Option String
  filename : Option String
  error : Option String

/-- Embedding of MarkdownConverter.convert: assemble the document and the
generated filename.  No arm of the embedded computation throws, so the
catch branch of the source is dead here and success is always reported. -/
def convert (env : ConvertEnv) (post : PostData) (mediaReferences : List MediaReference)
    (includeEngagement includeMediaLinks preserveFormatting : Bool)
    (maxTitleLength : Nat) : ConvertResult :=
  let title := generateTitle post.contentText maxTitleLength
  let markdown := joinSep "\n"
    (convertParts env post mediaReferences includeEngagement includeMediaLinks
      preserveFormatting maxTitleLength)
  ⟨true, some markdown, some title, some (mcGenerateFilename env post title), none⟩

/-- Per-media-item effect oracle of the archive loop: whether downloadMedia
reported success with a blob for the item at this index, and the stored
filename when storeMediaBinary succeeded for it. -/
structure MediaEnv where
  download : Nat → Bool
  storeName : Nat → Option String

/-- Media loop of ArchiveService.archivePost: walk the media list with its
index, keep a reference exactly for the items whose download succeeded and
whose storage succeeded with a filename, with the thumbnail as caption. -/
def collectMediaRefs (menv : MediaEnv) : Nat → List MediaItem → List MediaReference
  | _, [] => []
  | i, m :: rest =>
    let tail := collectMediaRefs menv (i + 1) rest
    if menv.download i then
      match menv.storeName i with
      | some fn => ⟨m.mtype, fn, m.url, m.thumbnail⟩ :: tail
      | none => tail
    else tail

/-- References collected by archivePost: the loop runs only when media
download is requested and the record has media. -/
def archiveMediaRefs (menv : MediaEnv) (post : PostData) (downloadOpt : Bool) :
    List MediaReference :=
  if downloadOpt && decide (0 < post.media.length) then collectMediaRefs menv 0 post.media
  else []

/-- Options of ArchiveService.archivePost (destructuring defaults: media
download and engagement on, overwrite and auto-rename off). -/
structure ArchiveOptions where
  overwrite : Bool
  autoRename : Bool
  downloadMedia : Bool
  includeEngagement : Bool

/-- Result record of ArchiveService.archivePost. -/
structure ArchiveResult where
  success : Bool
  filename : Option String
  path : Option String
  error : Option String
deriving DecidableEq

/-- World of one archivePost call: vault handle presence, access grant,
folder creation success, media oracles, destination directory contents,
converter environment, and an optional runtime exception thrown inside the
try block. -/
structure ArchiveEnv where
  vaultHandleOk : Bool
  vaultAccessOk : Bool
  folderOk : Bool
  media : MediaEnv
  existing : String → Bool
  convertEnv : ConvertEnv
  crashMsg : Option String

/-- Title of FileNameGenerator.extractTitle. -/
def fngExtractTitle (post : PostData) : String :=
  if post.contentText = "" then
    platformStr post.platform ++ "-post-" ++ String.mk (post.id.data.take 8)
  else
    String.mk (jsTrimList ((post.contentText.data.takeWhile (fun c => !(c = '\n'))).take 50))

/-- Trailing whitespace-hyphen-whitespace strip of the truncation branch. -/
def dropTrailingDash (l : List Char) : List Char :=
  let l1 := dropEndWhile isJsWs l
  match l1.getLast? with
  | some c => if c = '-' then dropEndWhile isJsWs l1.dropLast else l
  | none => l

/-- Embedding of FileNameGenerator.generateFilename with default options:
date, sanitized author when nonempty, sanitized nonempty title, the empty
parts filtered out, joined by spaced hyphens, truncated to the 197-character
budget and closed with the markdown extension.  The empty-joined fallback
that names the file from the clock is unreachable because the date part is
always nonempty. -/
def fngGenerateFilename (nowDate : JsDate) (post : PostData) : String :=
  let dateStr := formatDateYMD (post.timestampParsed.getD nowDate)
  let parts := [dateStr]
    ++ (if post.authorName = "" then [] else [fngSanitize post.authorName])
    ++ (let t := fngExtractTitle post
        if t = "" then [] else [fngSanitize t])
  let joined := joinSep " - " (parts.filter (fun p => !(p = "")))
  let base := if 197 < joined.data.length then
      dropTrailingDash (jsTrimList (joined.data.take 197))
    else joined.data
  String.mk base ++ ".md"

/-- Control flow of ArchiveService.archivePost up to the returned result:
an error escaping the try block surfaces on the Except error side, every
other outcome on the ok side.  Checks run in source order: vault handle,
access, folder structure; then the media loop, conversion, and the save
under the requested collision policy. -/
def archivePostCore (env : ArchiveEnv) (opts : ArchiveOptions) (post : PostData) :
    Except String ArchiveResult :=
  match env.crashMsg with
  | some msg => Except.error msg
  | none =>
    if !env.vaultHandleOk then
      Except.ok ⟨false, none, none, some "No vault selected. Please select a vault first."⟩
    else if !env.vaultAccessOk then
      Except.ok ⟨false, none, none, some "Vault access denied. Please grant permission."⟩
    else if !env.folderOk then
      Except.ok ⟨false, none, none, some "Failed to create folder structure"⟩
    else
      let folderPath := joinSep "/"
        (folderPathSegments post.platform (post.timestampParsed.getD env.convertEnv.nowDate))
      let mediaReferences := archiveMediaRefs env.media post opts.downloadMedia
      let conv := convert env.convertEnv post mediaReferences
        opts.includeEngagement opts.downloadMedia true 50
      if !conv.success then
        Except.ok ⟨false, none, none, some "Failed to convert post to markdown"⟩
      else
        let filename := match conv.filename with
          | some f => if f = "" then fngGenerateFilename env.convertEnv.nowDate post else f
          | none => fngGenerateFilename env.convertEnv.nowDate post
        let save := if opts.autoRename then saveFileWithAutoRename env.existing filename
                    else saveFile env.existing filename opts.overwrite
        match save.1 with
        | none => Except.ok ⟨false, none, none, some "Failed to save file"⟩
        | some savedPath =>
          Except.ok ⟨true, some savedPath, some (folderPath ++ "/" ++ savedPath), none⟩

/-- Embedding of ArchiveService.archivePost: the catch branch converts an
escaped error into a failure result. -/
def archivePost (env : ArchiveEnv) (opts : ArchiveOptions) (post : PostData) :
    ArchiveResult :=
  match archivePostCore env opts post with
  | .ok r => r
  | .error msg => ⟨false, none, none, some msg⟩

/-- Embedding of ArchiveService.archivePosts: strictly sequential loop that
appends one result per record and sleeps 100 milliseconds after each; the
second component accumulates the total inserted delay. -/
def archivePosts (envOf : PostData → ArchiveEnv) (opts : ArchiveOptions)
    (posts : List PostData) : List ArchiveResult × Nat :=
  posts.foldl (fun acc post => (acc.1 ++ [archivePost (envOf post) opts post], acc.2 + 100))
    ([], 0)

/-! General helper lemmas about the embedded string primitives. -/

theorem data_mk (l : List Char) : (String.mk l).data = l := rfl

theorem isDigit_bounds {c : Char} (h : c.isDigit = true) : 48 ≤ c.toNat ∧ c.toNat ≤ 57 := by
  simp [Char.isDigit] at h
  exact h

theorem digit_not_ws {c : Char} (h : c.isDigit = true) : isJsWs c = false := by
  obtain ⟨h1, h2⟩ := isDigit_bounds h
  simp [isJsWs]
  omega

theorem digit_toLower_self {c : Char} (h : c.isDigit = true) : toLowerAscii c = c := by
  obtain ⟨h1, h2⟩ := isDigit_bounds h
  unfold toLowerAscii
  have hA : ¬('A' ≤ c) := by
    intro hc
    rw [Char.le_def] at hc
    have hc2 : (65 : Nat) ≤ c.toNat := hc
    omega
  simp [hA]

theorem digit_ne {c d : Char} (h : c.isDigit = true)
    (hd : d.toNat < 48 ∨ 57 < d.toNat) : c ≠ d := by
  obtain ⟨h1, h2⟩ := isDigit_bounds h
  intro he
  subst he
  omega

theorem dropWhile_eq_self_of_false {p : Char → Bool} :
    ∀ {l : List Char}, (∀ c ∈ l, p c = false) → l.dropWhile p = l
  | [], _ => rfl
  | c :: cs, h => by
    rw [List.dropWhile_cons]
    simp [h c (by simp)]

theorem takeWhile_eq_self_of_true {p : Char → Bool} :
    ∀ {l : List Char}, (∀ c ∈ l, p c = true) → l.takeWhile p = l
  | [], _ => rfl
  | c :: cs, h => by
    have ih :=
      takeWhile_eq_self_of_true (p := p) (l := cs)
        (fun x hx => h x (List.mem_cons_of_mem _ hx))
    rw [List.takeWhile_cons, h c (List.mem_cons_self c cs)]
    simp [ih]

theorem dropWhile_eq_nil_of_true {p : Char → Bool} :
    ∀ {l : List Char}, (∀ c ∈ l, p c = true) → l.dropWhile p = []
  | [], _ => rfl
  | c :: cs, h => by
    have ih :=
      dropWhile_eq_nil_of_true (p := p) (l := cs)
        (fun x hx => h x (List.mem_cons_of_mem _ hx))
    rw [List.dropWhile_cons, h c (List.mem_cons_self c cs)]
    simp [ih]

theorem dropEndWhile_eq_self_of_false {p : Char → Bool} {l : List Char}
    (h : ∀ c ∈ l, p c = false) : dropEndWhile p l = l := by
  unfold dropEndWhile
  rw [dropWhile_eq_self_of_false (fun c hc => h c (List.mem_reverse.mp hc)),
    List.reverse_reverse]

theorem jsTrimList_eq_self {l : List Char} (h : ∀ c ∈ l, isJsWs c = false) :
    jsTrimList l = l := by
  unfold jsTrimList
  rw [dropWhile_eq_self_of_false h, dropEndWhile_eq_self_of_false h]

theorem map_eq_self {f : Char → Char} :
    ∀ {l : List Char}, (∀ c ∈ l, f c = c) → l.map f = l
  | [], _ => rfl
  | c :: cs, h => by
    simp only [List.map_cons]
    rw [h c (by simp), map_eq_self (fun x hx => h x (by simp [hx]))]

theorem removeFirst_head (c : Char) (l : List Char) : removeFirst c (c :: l) = l := by
  simp [removeFirst]

theorem removeFirst_append_last {c : Char} :
    ∀ {l : List Char}, (∀ x ∈ l, x ≠ c) → removeFirst c (l ++ [c]) = l
  | [], _ => by simp [removeFirst]
  | x :: xs, h => by
    have ih := removeFirst_append_last (c := c) (l := xs)
      (fun y hy => h y (List.mem_cons_of_mem _ hy))
    show removeFirst c (x :: (xs ++ [c])) = x :: xs
    rw [removeFirst.eq_def]
    simp only
    rw [if_neg (by simpa using h x (List.mem_cons_self x xs)), ih]

theorem containsChar_not {c : Char} {l : List Char} (h : ∀ x ∈ l, x ≠ c) :
    containsChar l c = false := by
  simp only [containsChar, List.any_eq_false, decide_eq_true_eq]
  intro x hx
  simpa using h x hx

theorem parseFloatJS_digits {l : List Char} (hne : l ≠ [])
    (h : ∀ c ∈ l, c.isDigit = true) :
    parseFloatJS l = some ⟨(digitsToNat l : ℤ), 0⟩ := by
  have hws : l.dropWhile isJsWs = l :=
    dropWhile_eq_self_of_false (fun c hc => digit_not_ws (h c hc))
  have htk : l.takeWhile Char.isDigit = l := takeWhile_eq_self_of_true h
  have hdr : l.dropWhile Char.isDigit = [] := dropWhile_eq_nil_of_true h
  have hplus : l.head? ≠ some '+' := by
    cases l with
    | nil => simp
    | cons x xs =>
      simp only [List.head?_cons, ne_eq, Option.some_inj]
      exact digit_ne (h x (by simp)) (by left; decide)
  have hminus : l.head? ≠ some '-' := by
    cases l with
    | nil => simp
    | cons x xs =>
      simp only [List.head?_cons, ne_eq, Option.some_inj]
      exact digit_ne (h x (by simp)) (by left; decide)
  have hie : l.isEmpty = false := by simp [hne]
  simp only [parseFloatJS, hws, htk, hdr, hie, hplus, hminus, List.head?_nil,
    or_self, if_false, Bool.false_eq_true, reduceCtorEq, if_neg, if_pos,
    Option.some.injEq]
  simp [mkJsNum, parseExp, pow10, digitsToNat]

theorem jsRound_int_mul {n k : ℤ} : jsRound (JsNum.mulInt ⟨n, 0⟩ k) = n * k := by
  simp only [jsRound, JsNum.mulInt, pow10, pow_zero, Nat.pow_zero, Nat.cast_one]
  rw [Int.fdiv_eq_ediv _ (by omega)]
  generalize n * k = m
  omega

/-- C2 counterexample: the letter k is detected anywhere in the text, not
only in trailing position, so an input with a leading k takes the
multiplier path.  The claim says a non-trailing-k input is stripped to its
digits, which for this input would give 5, but the code yields 5000. -/
theorem c2_parse_engagement_counterexample :
    parseEngagementNumber "k5" = some 5000 ∧ ¬(parseEngagementNumber "k5" = some 5) := by
  constructor
  · decide
  · decide

/-- C2 as amended: the multiplier letters are detected anywhere in the
trimmed lowercased text (k before m), the first occurrence is removed and
the remainder is parsed as a leading decimal number, multiplied by the
thousand or million factor and rounded; an input without either letter has
everything but digits and dots stripped and its leading digit run parsed,
with empty and unparsable text yielding 0; empty input yields 0; an
unparsable mantissa on the multiplier path propagates NaN instead of 0. -/
theorem c2_parse_engagement_amended :
    (∀ l : List Char, l ≠ [] → (∀ c ∈ l, c.isDigit = true) →
       parseEngagementNumber (String.mk (l ++ ['k'])) = some ((digitsToNat l : ℤ) * 1000)) ∧
    (∀ l : List Char, l ≠ [] → (∀ c ∈ l, c.isDigit = true) →
       parseEngagementNumber (String.mk ('k' :: l)) = some ((digitsToNat l : ℤ) * 1000)) ∧
    (∀ l : List Char, l ≠ [] → (∀ c ∈ l, c.isDigit = true) →
       parseEngagementNumber (String.mk (l ++ ['m'])) = some ((digitsToNat l : ℤ) * 1000000)) ∧
    (∀ l : List Char, (∀ c ∈ l, c.isDigit = true) →
       parseEngagementNumber (String.mk l) = some (digitsToNat l : ℤ)) ∧
    parseEngagementNumber "" = some 0 ∧
    parseEngagementNumber "1.2K" = some 1200 ∧
    parseEngagementNumber "3M" = some 3000000 ∧
    parseEngagementNumber "42" = some 42 ∧
    parseEngagementNumber "ok" = none := by
  refine ⟨?_, ?_, ?_, ?_, by decide, by decide, by decide, by decide, by decide⟩
  · intro l hne hdig
    have hkd : ∀ x ∈ l, x ≠ 'k' := fun x hx => digit_ne (hdig x hx) (by right; decide)
    have hnws : ∀ c ∈ l ++ ['k'], isJsWs c = false := by
      intro c hc
      rcases List.mem_append.mp hc with hL | hR
      · exact digit_not_ws (hdig c hL)
      · simp at hR; subst hR; decide
    have hlow : ∀ c ∈ l ++ ['k'], toLowerAscii c = c := by
      intro c hc
      rcases List.mem_append.mp hc with hL | hR
      · exact digit_toLower_self (hdig c hL)
      · simp at hR; subst hR; decide
    have hne2 : (l ++ ['k']).isEmpty = false := by simp
    have hcontk : containsChar (l ++ ['k']) 'k' = true := by simp [containsChar]
    simp only [parseEngagementNumber, data_mk, hne2, Bool.false_eq_true, if_false,
      jsTrimList_eq_self hnws, map_eq_self hlow, hcontk, if_true,
      removeFirst_append_last hkd, parseFloatJS_digits hne hdig]
    simp [jsRound_int_mul]
  · intro l hne hdig
    have hnws : ∀ c ∈ 'k' :: l, isJsWs c = false := by
      intro c hc
      rcases List.mem_cons.mp hc with hR | hL
      · subst hR; decide
      · exact digit_not_ws (hdig c hL)
    have hlow : ∀ c ∈ 'k' :: l, toLowerAscii c = c := by
      intro c hc
      rcases List.mem_cons.mp hc with hR | hL
      · subst hR; decide
      · exact digit_toLower_self (hdig c hL)
    have hne2 : ('k' :: l).isEmpty = false := by simp
    have hcontk : containsChar ('k' :: l) 'k' = true := by simp [containsChar]
    simp only [parseEngagementNumber, data_mk, hne2, Bool.false_eq_true, if_false,
      jsTrimList_eq_self hnws, map_eq_self hlow, hcontk, if_true,
      removeFirst_head, parseFloatJS_digits hne hdig]
    simp [jsRound_int_mul]
  · intro l hne hdig
    have hmd : ∀ x ∈ l, x ≠ 'm' := fun x hx => digit_ne (hdig x hx) (by right; decide)
    have hnok : ∀ x ∈ l ++ ['m'], x ≠ 'k' := by
      intro x hx
      rcases List.mem_append.mp hx with hL | hR
      · exact digit_ne (hdig x hL) (by right; decide)
      · simp at hR; subst hR; decide
    have hnws : ∀ c ∈ l ++ ['m'], isJsWs c = false := by
      intro c hc
      rcases List.mem_append.mp hc with hL | hR
      · exact digit_not_ws (hdig c hL)
      · simp at hR; subst hR; decide
    have hlow : ∀ c ∈ l ++ ['m'], toLowerAscii c = c := by
      intro c hc
      rcases List.mem_append.mp hc with hL | hR
      · exact digit_toLower_self (hdig c hL)
      · simp at hR; subst hR; decide
    have hne2 : (l ++ ['m']).isEmpty = false := by simp
    have hcontk : containsChar (l ++ ['m']) 'k' = false := containsChar_not hnok
    have hcontm : containsChar (l ++ ['m']) 'm' = true := by simp [containsChar]
    simp only [parseEngagementNumber, data_mk, hne2, Bool.false_eq_true, if_false,
      jsTrimList_eq_self hnws, map_eq_self hlow, hcontk, hcontm, if_true,
      removeFirst_append_last hmd, parseFloatJS_digits hne hdig]
    simp [jsRound_int_mul]
  · intro l hdig
    cases l with
    | nil => decide
    | cons x xs =>
      have hdig2 : ∀ c ∈ x :: xs, c.isDigit = true := hdig
      have hnok : ∀ y ∈ x :: xs, y ≠ 'k' :=
        fun y hy => digit_ne (hdig2 y hy) (by right; decide)
      have hnom : ∀ y ∈ x :: xs, y ≠ 'm' :=
        fun y hy => digit_ne (hdig2 y hy) (by right; decide)
      have hnws : ∀ c ∈ x :: xs, isJsWs c = false :=
        fun c hc => digit_not_ws (hdig2 c hc)
      have hlow : ∀ c ∈ x :: xs, toLowerAscii c = c :=
        fun c hc => digit_toLower_self (hdig2 c hc)
      have hne2 : (x :: xs).isEmpty = false := by simp
      have hfil : (x :: xs).filter (fun c => c.isDigit || c = '.') = x :: xs :=
        List.filter_eq_self.mpr (fun a ha => by simp [hdig2 a ha])
      have hpz : parseIntOrZero (x :: xs) = (digitsToNat (x :: xs) : ℤ) := by
        unfold parseIntOrZero
        rw [takeWhile_eq_self_of_true hdig2]
      simp only [parseEngagementNumber, data_mk, hne2, Bool.false_eq_true, if_false,
        jsTrimList_eq_self hnws, map_eq_self hlow, containsChar_not hnok,
        containsChar_not hnom, hfil, hpz]

/-- C2 witness: the amended theorem applied to the digit list of 7. -/
theorem c2_parse_engagement_amended_witness :
    parseEngagementNumber "7k" = some 7000 := by
  have h := c2_parse_engagement_amended.1 ['7'] (by decide) (by decide)
  exact h.trans (by decide)

/-! Lemmas about run collapsing and trimming, shared by the title and
filename sanitizer claims. -/

theorem mem_collapseRunsGo {p : Char → Bool} {rep : Char} :
    ∀ {l : List Char} {b : Bool} {c : Char}, c ∈ collapseRunsGo p rep b l →
      c = rep ∨ (c ∈ l ∧ p c = false)
  | [], b, c => by simp [collapseRunsGo]
  | x :: xs, b, c => by
    simp only [collapseRunsGo]
    cases hpx : p x with
    | true =>
      simp only [hpx, if_true]
      cases b with
      | true =>
        intro h
        rcases mem_collapseRunsGo h with h1 | ⟨h2, h3⟩
        · exact Or.inl h1
        · exact Or.inr ⟨List.mem_cons_of_mem _ h2, h3⟩
      | false =>
        intro h
        rcases List.mem_cons.mp h with h1 | h1
        · exact Or.inl h1
        · rcases mem_collapseRunsGo h1 with h2 | ⟨h3, h4⟩
          · exact Or.inl h2
          · exact Or.inr ⟨List.mem_cons_of_mem _ h3, h4⟩
    | false =>
      simp only [hpx, Bool.false_eq_true, if_false]
      intro h
      rcases List.mem_cons.mp h with h1 | h1
      · subst h1; exact Or.inr ⟨List.mem_cons_self _ _, hpx⟩
      · rcases mem_collapseRunsGo h1 with h2 | ⟨h3, h4⟩
        · exact Or.inl h2
        · exact Or.inr ⟨List.mem_cons_of_mem _ h3, h4⟩

theorem mem_collapseRuns {p : Char → Bool} {rep : Char} {l : List Char} {c : Char}
    (h : c ∈ collapseRuns p rep l) : c = rep ∨ (c ∈ l ∧ p c = false) :=
  mem_collapseRunsGo h

theorem mem_dropEndWhile {p : Char → Bool} {l : List Char} {c : Char}
    (h : c ∈ dropEndWhile p l) : c ∈ l := by
  unfold dropEndWhile at h
  rw [List.mem_reverse] at h
  exact List.mem_reverse.mp (List.dropWhile_subset _ h)

theorem mem_jsTrimList {l : List Char} {c : Char} (h : c ∈ jsTrimList l) : c ∈ l :=
  List.dropWhile_subset _ (mem_dropEndWhile h)

theorem head_dropWhile_false {p : Char → Bool} :
    ∀ {l : List Char} {c : Char}, (l.dropWhile p).head? = some c → p c = false
  | [], c => by simp
  | x :: xs, c => by
    rw [List.dropWhile_cons]
    cases hpx : p x with
    | true =>
      simp only [if_true]
      exact head_dropWhile_false
    | false =>
      simp only [Bool.false_eq_true, if_false, List.head?_cons, Option.some_inj]
      intro he
      subst he
      exact hpx

theorem dropEndWhile_isPre (p : Char → Bool) (l : List Char) :
    (dropEndWhile p l) <+: l := by
  obtain ⟨t, ht⟩ := List.dropWhile_suffix (l := l.reverse) p
  refine ⟨t.reverse, ?_⟩
  unfold dropEndWhile
  rw [← List.reverse_append, ht, List.reverse_reverse]

theorem head?_of_isPre {l1 l2 : List Char} {c : Char} (h : l1 <+: l2)
    (hc : l1.head? = some c) : l2.head? = some c := by
  obtain ⟨t, rfl⟩ := h
  cases l1 with
  | nil => simp at hc
  | cons x xs => simpa using hc

theorem getLast?_dropEndWhile_false {p : Char → Bool} {l : List Char} {c : Char}
    (h : (dropEndWhile p l).getLast? = some c) : p c = false := by
  unfold dropEndWhile at h
  rw [List.getLast?_reverse] at h
  exact head_dropWhile_false h

theorem head?_jsTrimList_false {l : List Char} {c : Char}
    (h : (jsTrimList l).head? = some c) : isJsWs c = false :=
  head_dropWhile_false (head?_of_isPre (dropEndWhile_isPre _ _) h)

theorem getLast?_jsTrimList_false {l : List Char} {c : Char}
    (h : (jsTrimList l).getLast? = some c) : isJsWs c = false :=
  getLast?_dropEndWhile_false h

/-- C3 counterexample: the whitespace collapse runs before the newline
split, so the title of a two-line text is the whole text with the newline
turned into a space, not the first line, already at the default length. -/
theorem c3_generate_title_counterexample :
    generateTitle "a\nb" 50 = "a b" ∧ ¬(generateTitle "a\nb" 50 = "a") := by
  constructor
  · decide
  · decide

/-- C3 as amended: the title is the whole content, trimmed and with every
whitespace run collapsed to one space (so line structure does not
survive), the fixed placeholder when nothing remains, and otherwise the
collapsed text truncated to maxTitleLength characters, trailing-trimmed,
with the ellipsis marker appended exactly when the collapsed text is
longer than maxTitleLength. -/
theorem c3_generate_title_amended :
    ∀ (content : String) (maxLength : Nat),
      generateTitle content maxLength = generateTitleSpec content maxLength := by
  intro content maxLength
  have hnl : (collapseRuns isJsWs ' ' (jsTrimList content.data)).takeWhile
      (fun c => !(c = '\n')) = collapseRuns isJsWs ' ' (jsTrimList content.data) := by
    apply takeWhile_eq_self_of_true
    intro c hc
    have hc2 : c ≠ '\n' := by
      rcases mem_collapseRuns hc with h1 | ⟨_, h2⟩
      · subst h1; decide
      · intro he
        subst he
        exact absurd h2 (by decide)
    simp [hc2]
  simp only [generateTitle, generateTitleSpec, hnl]

/-- C4 counterexample: neither sanitizer removes leading dots, and the
FileNameGenerator one removes no trailing dots at all, so a sanitized name
can start (and end) with a dot against the claim. -/
theorem c4_sanitize_counterexample :
    mcSanitizeFilename ".a" = ".a" ∧ fngSanitize ".a" = ".a" ∧ fngSanitize "a." = "a." := by
  refine ⟨by decide, by decide, by decide⟩

/-- C4 as amended: both sanitizers remove every filesystem-reserved and
control character and never let the output start or end with whitespace;
the no-leading-dot and no-trailing-dot part of the claim does not hold
(leading dots survive both sanitizers; trailing dots survive the
FileNameGenerator one, and can survive the markdown one through the
truncation that runs after the trailing-dot strip). -/
theorem c4_sanitize_amended :
    ∀ s : String,
      ((∀ c ∈ (mcSanitizeFilename s).data, fsInvalidChar c = false) ∧
       (∀ c, (mcSanitizeFilename s).data.head? = some c → isJsWs c = false) ∧
       (∀ c, (mcSanitizeFilename s).data.getLast? = some c → isJsWs c = false)) ∧
      ((∀ c ∈ (fngSanitize s).data, fsInvalidChar c = false) ∧
       (∀ c, (fngSanitize s).data.head? = some c → isJsWs c = false) ∧
       (∀ c, (fngSanitize s).data.getLast? = some c → isJsWs c = false)) := by
  intro s
  constructor
  · refine ⟨?_, ?_, ?_⟩
    · intro c hc
      simp only [mcSanitizeFilename, data_mk] at hc
      have h1 := List.mem_of_mem_take (mem_jsTrimList hc)
      have h2 := mem_dropEndWhile h1
      rcases mem_collapseRuns h2 with h3 | ⟨h4, _⟩
      · subst h3; decide
      · have h5 := (List.mem_filter.mp h4).2
        simpa using h5
    · intro c hc
      simp only [mcSanitizeFilename, data_mk] at hc
      exact head?_jsTrimList_false hc
    · intro c hc
      simp only [mcSanitizeFilename, data_mk] at hc
      exact getLast?_jsTrimList_false hc
  · have hnd : ∀ x ∈ collapseRuns (fun c => isJsWs c || c = '-') ' '
        ((s.data.filter (fun c => !(fsInvalidChar c))).map
          (fun c => if fngProblematicChar c then '-' else c)), (decide (x = '-')) = false := by
      intro x hx
      rcases mem_collapseRuns hx with h1 | ⟨_, h2⟩
      · subst h1; decide
      · rcases Bool.or_eq_false_iff.mp h2 with ⟨_, h3⟩
        exact h3
    have hnd2 : ∀ x ∈ jsTrimList (collapseRuns (fun c => isJsWs c || c = '-') ' '
        ((s.data.filter (fun c => !(fsInvalidChar c))).map
          (fun c => if fngProblematicChar c then '-' else c))), (decide (x = '-')) = false :=
      fun x hx => hnd x (mem_jsTrimList hx)
    have heq : (fngSanitize s).data = jsTrimList (collapseRuns (fun c => isJsWs c || c = '-') ' '
        ((s.data.filter (fun c => !(fsInvalidChar c))).map
          (fun c => if fngProblematicChar c then '-' else c))) := by
      simp only [fngSanitize, data_mk]
      rw [dropWhile_eq_self_of_false hnd2, dropEndWhile_eq_self_of_false hnd2]
    refine ⟨?_, ?_, ?_⟩
    · intro c hc
      rw [heq] at hc
      rcases mem_collapseRuns (mem_jsTrimList hc) with h1 | ⟨h2, _⟩
      · subst h1; decide
      · rcases List.mem_map.mp h2 with ⟨a, ha, hac⟩
        by_cases hp : fngProblematicChar a = true
        · rw [hp] at hac
          simp only [if_true] at hac
          subst hac; decide
        · rw [Bool.not_eq_true] at hp
          rw [hp] at hac
          simp only [Bool.false_eq_true, if_false] at hac
          subst hac
          simpa using (List.mem_filter.mp ha).2
    · intro c hc
      rw [heq] at hc
      exact head?_jsTrimList_false hc
    · intro c hc
      rw [heq] at hc
      exact getLast?_jsTrimList_false hc

/-- C4 witness: the amended theorem applied to a one-letter name whose
sanitized head is that letter. -/
theorem c4_sanitize_amended_witness :
    isJsWs 'a' = false ∧ fsInvalidChar 'a' = false :=
  ⟨(c4_sanitize_amended "a").1.2.1 'a' (by decide),
   (c4_sanitize_amended "a").1.1 'a' (by decide)⟩

/-! Lemmas about the auto-rename loop of the FileSaver. -/

theorem genGo_stops (ex : String → Bool) (base ext : String) {fuel c : Nat} {name : String}
    (hf : 0 < fuel) (h : ex name = false) : genGo ex base ext fuel name c = some name := by
  cases fuel with
  | zero => omega
  | succ f => simp [genGo, h]

theorem genGo_reaches (ex : String → Bool) (base ext : String) (n : Nat) :
    ∀ (fuel c : Nat) (name : String), c ≤ n → n ≤ 999 → 1001 ≤ fuel + c →
      ex name = true → ex (mkCandidate base ext n) = false →
      (∀ m, c ≤ m → m < n → ex (mkCandidate base ext m) = true) →
      genGo ex base ext fuel name c = some (mkCandidate base ext n) := by
  intro fuel
  induction fuel with
  | zero =>
    intro c name hcn hn hf
    omega
  | succ f ih =>
    intro c name hcn hn hf hname hfree hbusy
    have hcap : ¬(c + 1 > 1000) := by omega
    simp only [genGo, hname, if_true, hcap, if_false]
    by_cases hceq : c = n
    · subst hceq
      exact genGo_stops ex base ext (by omega) hfree
    · exact ih (c + 1) (mkCandidate base ext c) (by omega) hn (by omega)
        (hbusy c (le_refl c) (by omega)) hfree
        (fun m hm1 hm2 => hbusy m (by omega) hm2)

theorem genGo_exhausts (ex : String → Bool) (base ext : String) :
    ∀ (fuel c : Nat) (name : String), 1 ≤ c → c ≤ 1000 → 1001 ≤ fuel + c →
      ex name = true →
      (∀ m, c ≤ m → m ≤ 999 → ex (mkCandidate base ext m) = true) →
      genGo ex base ext fuel name c = none := by
  intro fuel
  induction fuel with
  | zero =>
    intro c name hc1 hc hf
    omega
  | succ f ih =>
    intro c name hc1 hc hf hname hbusy
    by_cases hcap : c + 1 > 1000
    · simp only [genGo, hname, if_true, hcap, if_true]
    · simp only [genGo, hname, if_true, hcap, if_false]
      exact ih (c + 1) (mkCandidate base ext c) (by omega) (by omega) (by omega)
        (hbusy c (le_refl c) (by omega))
        (fun m hm1 hm2 => hbusy m (by omega) hm2)

/-- C5 as amended: when the requested name exists, the file is saved under
the candidate with the smallest counter not exceeding 999 whose name is
unused; when the original and every candidate from 1 to 999 exist, the
operation fails permanently, without ever testing candidate 1000 (the
counter cap fires right after that candidate is generated). -/
theorem c5_auto_rename_amended :
    (∀ (ex : String → Bool) (orig : String) (n : Nat),
       ex orig = true → 1 ≤ n → n ≤ 999 →
       ex (mkCandidate (splitExtension orig).1 (splitExtension orig).2 n) = false →
       (∀ m, 1 ≤ m → m < n →
          ex (mkCandidate (splitExtension orig).1 (splitExtension orig).2 m) = true) →
       (saveFileWithAutoRename ex orig).1
         = some (mkCandidate (splitExtension orig).1 (splitExtension orig).2 n)) ∧
    (∀ (ex : String → Bool) (orig : String),
       ex orig = true →
       (∀ m, 1 ≤ m → m ≤ 999 →
          ex (mkCandidate (splitExtension orig).1 (splitExtension orig).2 m) = true) →
       (saveFileWithAutoRename ex orig).1 = none) := by
  constructor
  · intro ex orig n hex h1 h999 hfree hbusy
    have hgen : generateUniqueFilename ex orig
        = some (mkCandidate (splitExtension orig).1 (splitExtension orig).2 n) := by
      unfold generateUniqueFilename
      exact genGo_reaches ex _ _ n 1000 1 orig h1 h999 (by omega) hex hfree hbusy
    simp only [saveFileWithAutoRename, hex, Bool.not_true, Bool.false_eq_true, if_false,
      hgen, saveFile, hfree, Bool.false_and, if_false]
  · intro ex orig hex hbusy
    have hgen : generateUniqueFilename ex orig = none := by
      unfold generateUniqueFilename
      exact genGo_exhausts ex _ _ 1000 1 orig (le_refl 1) (by omega) (by omega) hex hbusy
    simp only [saveFileWithAutoRename, hex, Bool.not_true, Bool.false_eq_true, if_false, hgen]

/-- C5 witness: saving into a directory holding only the original yields
candidate 1, and saving again into the resulting directory yields
candidate 2, through the amended theorem. -/
theorem c5_auto_rename_amended_witness :
    (saveFileWithAutoRename (fun s => decide (s = "post.md")) "post.md").1
      = some "post (1).md" ∧
    (saveFileWithAutoRename
        (saveFileWithAutoRename (fun s => decide (s = "post.md")) "post.md").2 "post.md").1
      = some "post (2).md" := by
  constructor
  · have h := c5_auto_rename_amended.1 (fun s => decide (s = "post.md")) "post.md" 1
      (by decide) (le_refl 1) (by omega) (by decide)
      (fun m hm1 hm2 => absurd (Nat.lt_of_le_of_lt hm1 hm2) (Nat.lt_irrefl 1))
    exact h.trans (by decide)
  · have h := c5_auto_rename_amended.1
      ((saveFileWithAutoRename (fun s => decide (s = "post.md")) "post.md").2) "post.md" 2
      (by decide) (by omega) (by omega) (by decide)
      (fun m hm1 hm2 => by
        have hm : m = 1 := by omega
        subst hm
        decide)
    exact h.trans (by decide)

set_option maxRecDepth 40000 in
/-- C5 counterexample: when the original and candidates 1 through 999
exist but candidate 1000 is free, the smallest unused counter is 1000, yet
the save fails instead of storing under that name. -/
theorem c5_auto_rename_counterexample :
    (saveFileWithAutoRename (fun s => !(decide (s = "post (1000).md"))) "post.md").1
      = none ∧
    (fun s => !(decide (s = "post (1000).md"))) "post (1000).md" = false := by
  constructor
  · decide
  · decide

/-! Lemmas about the retry loop of the media downloader. -/

theorem downloadMediaGo_spec (env : Nat → AttemptOutcome) :
    ∀ (r a : Nat),
      (downloadMediaGo env (a + 1) r).2.2 ≤ r ∧
      (downloadMediaGo env (a + 1) r).2.1
        = (List.range' a ((downloadMediaGo env (a + 1) r).2.2)).map (fun k => 1000 * 2 ^ k) := by
  intro r
  induction r with
  | zero =>
    intro a
    simp [downloadMediaGo]
  | succ r ih =>
    intro a
    by_cases hok : attemptOk (env (a + 1)) = true
    · simp [downloadMediaGo, hok]
    · obtain ⟨ih1, ih2⟩ := ih (a + 1)
      simp only [downloadMediaGo, hok, Bool.false_eq_true, if_false, Nat.add_sub_cancel,
        Nat.succ_ne_zero]
      refine ⟨by omega, ?_⟩
      rw [List.range'_succ]
      simp [ih2]

/-- C6: downloadMedia makes at most the configured number of attempts
(default 3), and the delays inserted before the retries follow exact
binary exponential backoff from one second: before the k-th retry the
delay is 1000 times 2 to the k minus 1 milliseconds.  In particular a
fetch failing on the first two attempts and succeeding on the third
succeeds after exactly the delays 1000 and 2000 and three attempts. -/
theorem c6_download_media_backoff :
    ∀ (env : Nat → AttemptOutcome) (maxAttempts : Nat),
      ((downloadMedia env maxAttempts).2.2 ≤ maxAttempts ∧
       (downloadMedia env maxAttempts).2.1
         = (List.range ((downloadMedia env maxAttempts).2.2 - 1)).map
             (fun k => 1000 * 2 ^ k)) ∧
      (∀ env2 : Nat → AttemptOutcome,
         attemptOk (env2 0) = false → attemptOk (env2 1) = false →
         attemptOk (env2 2) = true →
         downloadMedia env2 3 = (true, [1000, 2000], 3)) := by
  intro env maxAttempts
  constructor
  · cases maxAttempts with
    | zero => simp [downloadMedia, downloadMediaGo]
    | succ r =>
      by_cases hok : attemptOk (env 0) = true
      · simp [downloadMedia, downloadMediaGo, hok]
      · obtain ⟨h1, h2⟩ := downloadMediaGo_spec env r 0
        simp only [downloadMedia, downloadMediaGo, hok, Bool.false_eq_true, if_false,
          if_true, Nat.add_sub_cancel]
        refine ⟨by omega, ?_⟩
        rw [List.range_eq_range']
        simp [h2]
  · intro env2 h0 h1 h2
    simp [downloadMedia, downloadMediaGo, h0, h1, h2]

/-- C6 witness: the delay and attempt schedule at a concrete oracle that
fails twice and then succeeds. -/
theorem c6_download_media_backoff_witness :
    downloadMedia (fun i => ⟨decide (i = 2), false, false⟩) 3 = (true, [1000, 2000], 3) :=
  (c6_download_media_backoff (fun _ => ⟨false, false, false⟩) 0).2
    (fun i => ⟨decide (i = 2), false, false⟩) (by decide) (by decide) (by decide)

/-! Lemmas about the batch download loop. -/

theorem chunkListAux_flatten {c : Nat} (hc : 0 < c) :
    ∀ (fuel : Nat) (l : List String), l.length ≤ fuel →
      (chunkListAux c fuel l).flatten = l := by
  intro fuel
  induction fuel with
  | zero =>
    intro l hl
    cases l with
    | nil => simp [chunkListAux]
    | cons x xs => simp at hl
  | succ f ih =>
    intro l hl
    cases l with
    | nil => simp [chunkListAux]
    | cons x xs =>
      simp only [chunkListAux, List.flatten_cons]
      rw [ih ((x :: xs).drop c)
        (by simp only [List.length_drop, List.length_cons] at hl ⊢; omega)]
      exact List.take_append_drop c (x :: xs)

theorem chunkListAux_mem_length {c : Nat} :
    ∀ (fuel : Nat) (l w : List String), 0 < c → l.length ≤ fuel →
      w ∈ chunkListAux c fuel l → w.length ≤ c := by
  intro fuel
  induction fuel with
  | zero =>
    intro l w hc hl hw
    cases l with
    | nil => simp [chunkListAux] at hw
    | cons x xs => simp at hl
  | succ f ih =>
    intro l w hc hl hw
    cases l with
    | nil => simp [chunkListAux] at hw
    | cons x xs =>
      simp only [chunkListAux, List.mem_cons] at hw
      rcases hw with hw | hw
      · subst hw
        calc ((x :: xs).take c).length = min c (x :: xs).length := List.length_take ..
          _ ≤ c := Nat.min_le_left ..
      · exact ih ((x :: xs).drop c) w hc
          (by simp only [List.length_drop, List.length_cons] at hl ⊢; omega) hw

theorem processAll_counts (fetch : String → Nat → AttemptOutcome) :
    ∀ (l : List String) (st : BatchState),
      (l.foldl (processItem fetch) st).succ + (l.foldl (processItem fetch) st).fail
        = st.succ + st.fail + l.length := by
  intro l
  induction l with
  | nil => intro st; simp
  | cons x xs ih =>
    intro st
    rw [List.foldl_cons, ih]
    cases hr : (downloadMedia (fetch x) 3).1 <;> simp [processItem, hr] <;> omega

theorem jsMapGet_set_self :
    ∀ (m : List (String × Bool)) (k : String) (v : Bool),
      jsMapGet (jsMapSet m k v) k = some v
  | [], k, v => by simp [jsMapSet, jsMapGet]
  | (k0, v0) :: rest, k, v => by
    by_cases h : k0 = k
    · simp [jsMapSet, jsMapGet, h]
    · simp only [jsMapSet, h, if_false, jsMapGet]
      exact jsMapGet_set_self rest k v


theorem jsMapGet_set_other :
    ∀ (m : List (String × Bool)) (k : String) (v : Bool) (u : String), u ≠ k →
      jsMapGet (jsMapSet m k v) u = jsMapGet m u
  | [], k, v, u, h => by
    simp only [jsMapSet, jsMapGet]
    rw [if_neg (fun he => h he.symm)]
  | (k0, v0) :: rest, k, v, u, h => by
    by_cases h0 : k0 = k
    · subst h0
      simp only [jsMapSet, if_pos rfl, jsMapGet]
      rw [if_neg (fun he => h he.symm), if_neg (fun he => h he.symm)]
    · simp only [jsMapSet, h0, if_false, jsMapGet]
      by_cases hu : k0 = u
      · rw [if_pos hu, if_pos hu]
      · rw [if_neg hu, if_neg hu]
        exact jsMapGet_set_other rest k v u h

theorem processAll_lookup (fetch : String → Nat → AttemptOutcome) :
    ∀ (l : List String) (st : BatchState) (u : String),
      (u ∈ l ∨ jsMapGet st.results u = some ((downloadMedia (fetch u) 3).1)) →
      jsMapGet ((l.foldl (processItem fetch) st).results) u
        = some ((downloadMedia (fetch u) 3).1) := by
  intro l
  induction l with
  | nil =>
    intro st u h
    rcases h with h | h
    · simp at h
    · simpa using h
  | cons x xs ih =>
    intro st u h
    rw [List.foldl_cons]
    apply ih
    by_cases hux : u = x
    · subst hux
      right
      simp only [processItem]
      exact jsMapGet_set_self ..
    · rcases h with h | h
      · rcases List.mem_cons.mp h with h1 | h1
        · exact absurd h1 hux
        · exact Or.inl h1
      · right
        simp only [processItem]
        rw [jsMapGet_set_other _ _ _ _ hux]
        exact h

/-- C7: downloadBatch processes the urls in waves of at most the requested
concurrency (the waves concatenate back to the input), the success and
failure counters always sum to the number of input urls, the mapping holds
a result for every input url, and the batch is reported successful exactly
when no item failed: one failed item marks the whole batch failed. -/
theorem c7_download_batch :
    ∀ (fetch : String → Nat → AttemptOutcome) (concurrency : Nat) (urls : List String),
      0 < concurrency →
      ((downloadBatch fetch concurrency urls).successCount
          + (downloadBatch fetch concurrency urls).failureCount = urls.length) ∧
      ((downloadBatch fetch concurrency urls).success = true ↔
          (downloadBatch fetch concurrency urls).failureCount = 0) ∧
      (∀ w ∈ chunkList concurrency urls, w.length ≤ concurrency) ∧
      ((chunkList concurrency urls).flatten = urls) ∧
      (∀ u ∈ urls, jsMapGet (downloadBatch fetch concurrency urls).results u
          = some ((downloadMedia (fetch u) 3).1)) := by
  intro fetch c urls hc
  have hflat : (chunkList c urls).flatten = urls :=
    chunkListAux_flatten hc _ _ (le_refl _)
  have hfold : (chunkList c urls).foldl (processWave fetch) ⟨[], 0, 0⟩
      = urls.foldl (processItem fetch) ⟨[], 0, 0⟩ := by
    have h1 := List.foldl_flatten (processItem fetch) (⟨[], 0, 0⟩ : BatchState)
      (chunkList c urls)
    rw [hflat] at h1
    exact h1.symm
  refine ⟨?_, ?_, ?_, hflat, ?_⟩
  · simp only [downloadBatch, hfold]
    have h := processAll_counts fetch urls ⟨[], 0, 0⟩
    simpa using h
  · simp [downloadBatch]
  · intro w hw
    exact chunkListAux_mem_length _ _ _ hc (le_refl _) hw
  · intro u hu
    simp only [downloadBatch, hfold]
    exact processAll_lookup fetch urls ⟨[], 0, 0⟩ u (Or.inl hu)

/-- C7 witness: a two-url batch with one failing item at concurrency 3. -/
theorem c7_download_batch_witness :
    (downloadBatch (fun u _ => ⟨decide (u = "a"), false, false⟩) 3 ["a", "b"]).successCount
        + (downloadBatch (fun u _ => ⟨decide (u = "a"), false, false⟩) 3
            ["a", "b"]).failureCount = 2 :=
  (c7_download_batch (fun u _ => ⟨decide (u = "a"), false, false⟩) 3 ["a", "b"]
    (by omega)).1

/-! Lemmas about folder creation. -/

theorem mem_getOrCreateFolder_self (dirs : List (List String)) (path : List String) :
    path ∈ getOrCreateFolder dirs path := by
  unfold getOrCreateFolder
  by_cases h : path ∈ dirs
  · simpa [h]
  · simp [h]

theorem mem_getOrCreateFolder_mono {dirs : List (List String)} {p x : List String}
    (h : x ∈ dirs) : x ∈ getOrCreateFolder dirs p := by
  unfold getOrCreateFolder
  by_cases hp : p ∈ dirs
  · simpa [hp]
  · simp [hp, List.mem_append, h]

theorem getOrCreateFolder_of_mem {dirs : List (List String)} {p : List String}
    (h : p ∈ dirs) : getOrCreateFolder dirs p = dirs := by
  simp [getOrCreateFolder, h]

theorem ensureGo_mono :
    ∀ (segs : List String) (dirs : List (List String)) (cur x : List String),
      x ∈ dirs → x ∈ (ensureGo dirs cur segs).1
  | [], dirs, cur, x, h => h
  | seg :: rest, dirs, cur, x, h =>
    ensureGo_mono rest _ _ x (mem_getOrCreateFolder_mono h)

theorem ensureGo_idem :
    ∀ (segs : List String) (dirs : List (List String)) (cur : List String),
      ensureGo (ensureGo dirs cur segs).1 cur segs = ensureGo dirs cur segs
  | [], dirs, cur => rfl
  | seg :: rest, dirs, cur => by
    simp only [ensureGo]
    have hmem : (cur ++ [seg]) ∈ (ensureGo (getOrCreateFolder dirs (cur ++ [seg]))
        (cur ++ [seg]) rest).1 :=
      ensureGo_mono rest _ _ _ (mem_getOrCreateFolder_self dirs (cur ++ [seg]))
    rw [getOrCreateFolder_of_mem hmem]
    exact ensureGo_idem rest (getOrCreateFolder dirs (cur ++ [seg])) (cur ++ [seg])

/-- C8 counterexample: the platform path segment is the capitalized
display name, so the derived folder path for facebook and 2025-10-15 ends
with Facebook/2025/10 and not with the claimed lowercase facebook/2025/10. -/
theorem c8_folder_structure_counterexample :
    (ensureFolderStructure [] Platform.facebook ⟨2025, 9, 15⟩).2
        = "Social Archive/Facebook/2025/10" ∧
    jsEndsWith (ensureFolderStructure [] Platform.facebook ⟨2025, 9, 15⟩).2
        "facebook/2025/10" = false := by
  constructor
  · decide
  · decide

theorem ensureFolderStructure_path (dirs : List (List String)) (platform : Platform)
    (date : JsDate) :
    (ensureFolderStructure dirs platform date).2
      = joinSep "/" (folderPathSegments platform date) := rfl

theorem ensureFolderStructure_dirs (dirs : List (List String)) (platform : Platform)
    (date : JsDate) :
    (ensureFolderStructure dirs platform date).1
      = (ensureGo dirs [] (folderPathSegments platform date)).1 := rfl

/-- C8 as amended: the derived path is the joined segment list root,
platform display name, four-digit year, two-digit month; it is the same
whatever directories pre-exist, creation is idempotent on the directory
state, and for platform facebook with date 2025-10-15 the path ends with
Facebook/2025/10 (capitalized display name). -/
theorem c8_folder_structure_amended :
    ∀ (dirs dirs2 : List (List String)) (platform : Platform) (date : JsDate),
      ((ensureFolderStructure dirs platform date).2
         = (ensureFolderStructure dirs2 platform date).2) ∧
      ((ensureFolderStructure (ensureFolderStructure dirs platform date).1 platform date).1
         = (ensureFolderStructure dirs platform date).1) ∧
      (jsEndsWith (ensureFolderStructure dirs Platform.facebook ⟨2025, 9, 15⟩).2
         "Facebook/2025/10" = true) ∧
      ((ensureFolderStructure dirs platform date).2
         = joinSep "/" (folderPathSegments platform date)) := by
  intro dirs dirs2 platform date
  refine ⟨?_, ?_, ?_, ensureFolderStructure_path ..⟩
  · rw [ensureFolderStructure_path, ensureFolderStructure_path]
  · rw [ensureFolderStructure_dirs, ensureFolderStructure_dirs]
    exact congrArg Prod.fst (ensureGo_idem _ dirs [])
  · rw [ensureFolderStructure_path]
    decide

/-! Lemmas about platform detection. -/

theorem hostMatches_unique {h : String} {p q : Platform}
    (hp : hostMatches h (domainOf p)) (hq : hostMatches h (domainOf q)) : p = q := by
  cases p <;> cases q <;> try rfl
  all_goals {
    exfalso
    rcases hp with h1 | h1 <;> rcases hq with h2 | h2
    · exact absurd (h1.symm.trans h2) (by decide)
    · rw [h1] at h2
      exact absurd h2 (by decide)
    · rw [h2] at h1
      exact absurd h1 (by decide)
    · unfold jsEndsWith at h1 h2
      rw [List.isSuffixOf_iff_suffix] at h1 h2
      rcases List.suffix_or_suffix_of_suffix h1 h2 with hs | hs <;>
        exact absurd hs (by decide)
  }

theorem detectPlatformFromHostname_eq_some {h : String} {p : Platform} :
    detectPlatformFromHostname h = some p ↔ hostMatches h (domainOf p) := by
  constructor
  · intro hd
    unfold detectPlatformFromHostname at hd
    by_cases h1 : lowerStr h = "facebook.com" ∨ jsEndsWith (lowerStr h) ".facebook.com" = true
    · rw [if_pos h1] at hd
      cases hd
      exact h1
    · rw [if_neg h1] at hd
      by_cases h2 : lowerStr h = "instagram.com" ∨ jsEndsWith (lowerStr h) ".instagram.com" = true
      · rw [if_pos h2] at hd
        cases hd
        exact h2
      · rw [if_neg h2] at hd
        by_cases h3 : lowerStr h = "linkedin.com" ∨ jsEndsWith (lowerStr h) ".linkedin.com" = true
        · rw [if_pos h3] at hd
          cases hd
          exact h3
        · rw [if_neg h3] at hd
          exact absurd hd (by simp)
  · intro hm
    have huniq : ∀ q : Platform, hostMatches h (domainOf q) → q = p :=
      fun q hq => hostMatches_unique hq hm
    unfold detectPlatformFromHostname
    by_cases h1 : lowerStr h = "facebook.com" ∨ jsEndsWith (lowerStr h) ".facebook.com" = true
    · rw [if_pos h1, huniq Platform.facebook h1]
    · rw [if_neg h1]
      by_cases h2 : lowerStr h = "instagram.com" ∨ jsEndsWith (lowerStr h) ".instagram.com" = true
      · rw [if_pos h2, huniq Platform.instagram h2]
      · rw [if_neg h2]
        by_cases h3 : lowerStr h = "linkedin.com" ∨ jsEndsWith (lowerStr h) ".linkedin.com" = true
        · rw [if_pos h3, huniq Platform.linkedin h3]
        · rw [if_neg h3]
          exfalso
          cases p
          · exact h1 hm
          · exact h2 hm
          · exact h3 hm

/-- C10: a parsed URL is assigned a platform exactly when its lowercased
hostname equals that platform's domain or ends with a dot followed by it
(so a hostname that merely contains the platform name, like
evilfacebook.com, yields null), and a URL that fails parsing falls back to
substring matching of the domain over the whole input string. -/
theorem c10_detect_platform :
    ∀ (h url : String),
      (∀ p, detectPlatform url (some h) = some p ↔ hostMatches h (domainOf p)) ∧
      (detectPlatform url (some h) = none ↔ ∀ p, ¬hostMatches h (domainOf p)) ∧
      (detectPlatform url none = none ↔
        ∀ p, strContainsSub url (domainOf p) = false) ∧
      (∀ p, detectPlatform url none = some p → strContainsSub url (domainOf p) = true) := by
  intro h url
  refine ⟨fun p => detectPlatformFromHostname_eq_some, ?_, ?_, ?_⟩
  · constructor
    · intro hn p hm
      have hm2 : detectPlatformFromHostname h = some p :=
        detectPlatformFromHostname_eq_some.mpr hm
      have hn2 : detectPlatformFromHostname h = none := hn
      rw [hm2] at hn2
      cases hn2
    · intro hall
      cases hd : detectPlatformFromHostname h with
      | none => exact hd
      | some p =>
        exact absurd (detectPlatformFromHostname_eq_some.mp hd) (hall p)
  · constructor
    · intro hn p
      simp only [detectPlatform, detectPlatformFallback] at hn
      by_cases h1 : strContainsSub url "facebook.com" = true
      · rw [if_pos h1] at hn
        cases hn
      · rw [if_neg h1] at hn
        by_cases h2 : strContainsSub url "instagram.com" = true
        · rw [if_pos h2] at hn
          cases hn
        · rw [if_neg h2] at hn
          by_cases h3 : strContainsSub url "linkedin.com" = true
          · rw [if_pos h3] at hn
            cases hn
          · rw [Bool.not_eq_true] at h1 h2 h3
            cases p
            · exact h1
            · exact h2
            · exact h3
    · intro hall
      simp only [detectPlatform, detectPlatformFallback]
      have h1 := hall Platform.facebook
      have h2 := hall Platform.instagram
      have h3 := hall Platform.linkedin
      simp only [domainOf] at h1 h2 h3
      simp [h1, h2, h3]
  · intro p hd
    simp only [detectPlatform, detectPlatformFallback] at hd
    by_cases h1 : strContainsSub url "facebook.com" = true
    · rw [if_pos h1] at hd
      cases hd
      exact h1
    · rw [if_neg h1] at hd
      by_cases h2 : strContainsSub url "instagram.com" = true
      · rw [if_pos h2] at hd
        cases hd
        exact h2
      · rw [if_neg h2] at hd
        by_cases h3 : strContainsSub url "linkedin.com" = true
        · rw [if_pos h3] at hd
          cases hd
          exact h3
        · rw [if_neg h3] at hd
          exact absurd hd (by simp)

/-- C10 witness: a facebook subdomain is detected, a hostname merely
containing the platform name is not, and the fallback matches substrings. -/
theorem c10_detect_platform_witness :
    detectPlatform "x" (some "m.facebook.com") = some Platform.facebook ∧
    detectPlatform "x" (some "evilfacebook.com") = none ∧
    strContainsSub "https://facebook.com/p" "facebook.com" = true :=
  ⟨((c10_detect_platform "m.facebook.com" "x").1 Platform.facebook).mpr
     (Or.inr (by decide)),
   (c10_detect_platform "evilfacebook.com" "x").2.1.mpr
     (fun p => by cases p <;> decide),
   (c10_detect_platform "x" "https://facebook.com/p").2.2.2 Platform.facebook
     (by decide)⟩

/-! Lemmas about the batch archival loop. -/

theorem archivePosts_foldl (envOf : PostData → ArchiveEnv) (opts : ArchiveOptions) :
    ∀ (posts : List PostData) (acc : List ArchiveResult) (d : Nat),
      posts.foldl
        (fun acc post => (acc.1 ++ [archivePost (envOf post) opts post], acc.2 + 100))
        (acc, d)
      = (acc ++ posts.map (fun p => archivePost (envOf p) opts p),
         d + 100 * posts.length) := by
  intro posts
  induction posts with
  | nil =>
    intro acc d
    simp
  | cons p ps ih =>
    intro acc d
    rw [List.foldl_cons, ih]
    simp only [List.map_cons, List.length_cons, Prod.mk.injEq]
    constructor
    · simp
    · omega

/-- C9: batch archival returns exactly the per-record results of the
sequential archivePost calls, one per input record in input order, with a
fixed 100 millisecond pause accumulated after each record; a runtime error
escaping one record's pipeline is caught and converted into that record's
failure result, so it never aborts the processing of later records. -/
theorem c9_archive_posts :
    ∀ (envOf : PostData → ArchiveEnv) (opts : ArchiveOptions) (posts : List PostData),
      ((archivePosts envOf opts posts).1
         = posts.map (fun p => archivePost (envOf p) opts p)) ∧
      ((archivePosts envOf opts posts).2 = 100 * posts.length) ∧
      (∀ post msg, archivePostCore (envOf post) opts post = Except.error msg →
         archivePost (envOf post) opts post = ⟨false, none, none, some msg⟩) := by
  intro envOf opts posts
  refine ⟨?_, ?_, ?_⟩
  · unfold archivePosts
    rw [archivePosts_foldl]
    simp
  · unfold archivePosts
    rw [archivePosts_foldl]
    simp
  · intro post msg h
    unfold archivePost
    rw [h]

/-- C9 witness: a crashing environment still yields a per-record failure
result through the catch branch. -/
theorem c9_archive_posts_witness :
    archivePost
      (⟨true, true, true, ⟨fun _ => false, fun _ => none⟩, fun _ => false,
        ⟨"t", fun _ => "t", ⟨2025, 0, 1⟩⟩, some "boom"⟩ : ArchiveEnv)
      ⟨false, false, true, true⟩
      ⟨"id", Platform.facebook, "Author", "text", none, [], "u", none, none⟩
      = ⟨false, none, none, some "boom"⟩ :=
  (c9_archive_posts
    (fun _ => ⟨true, true, true, ⟨fun _ => false, fun _ => none⟩, fun _ => false,
      ⟨"t", fun _ => "t", ⟨2025, 0, 1⟩⟩, some "boom"⟩)
    ⟨false, false, true, true⟩
    [⟨"id", Platform.facebook, "Author", "text", none, [], "u", none, none⟩]).2.2
    ⟨"id", Platform.facebook, "Author", "text", none, [], "u", none, none⟩ "boom" rfl

/-! String-level lemmas about the assembled document parts. -/

theorem joinSep_cons_eq_append (sep a : String) (rest : List String) :
    ∃ t : String, joinSep sep (a :: rest) = a ++ t := by
  cases rest with
  | nil => exact ⟨"", (String.append_empty a).symm⟩
  | cons b bs =>
    exact ⟨sep ++ joinSep sep (b :: bs), by simp [joinSep, String.append_assoc]⟩

theorem starts_head {s pre : String} {c : Char} (h : strStartsWith s pre = true)
    (hp : pre.data.head? = some c) : s.data.head? = some c := by
  unfold strStartsWith at h
  rw [List.isPrefixOf_iff_prefix] at h
  obtain ⟨t, ht⟩ := h
  rw [← ht]
  cases hd : pre.data with
  | nil =>
    rw [hd] at hp
    cases hp
  | cons x xs =>
    rw [hd] at hp
    simpa using hp

theorem not_starts_media_of_head {s : String} {c : Char} (hc : s.data.head? = some c)
    (hne : c ≠ '\n') : strStartsWith s "\n## Media" = false := by
  cases h : strStartsWith s "\n## Media" with
  | false => rfl
  | true =>
    exfalso
    have h2 := starts_head h (show ("\n## Media").data.head? = some '\n' from rfl)
    rw [hc] at h2
    exact hne (Option.some_inj.mp h2)

theorem not_starts_media_of_empty {s : String} (hs : s.data = []) :
    strStartsWith s "\n## Media" = false := by
  unfold strStartsWith
  rw [hs]
  rfl

theorem not_starts_media_engagement_body (t : String) :
    strStartsWith ("\n## Engagement\n" ++ t) "\n## Media" = false := by
  cases h : strStartsWith ("\n## Engagement\n" ++ t) "\n## Media" with
  | false => rfl
  | true =>
    exfalso
    unfold strStartsWith at h
    rw [List.isPrefixOf_iff_prefix, List.prefix_iff_eq_take, String.data_append,
      List.take_append_of_le_length (by decide)] at h
    exact absurd h (by decide)

theorem head?_append_left {a t : List Char} {c : Char} (h : a.head? = some c) :
    (a ++ t).head? = some c := by
  cases a with
  | nil => cases h
  | cons x xs => simpa using h

theorem fmY_not_starts (fm : MarkdownFrontmatter) :
    strStartsWith (formatFrontmatterYAML fm) "\n## Media" = false := by
  obtain ⟨t, ht⟩ : ∃ t, formatFrontmatterYAML fm = "---" ++ t := by
    unfold formatFrontmatterYAML
    exact joinSep_cons_eq_append "\n" "---" _
  rw [ht]
  refine not_starts_media_of_head (c := '-') ?_ (by decide)
  rw [String.data_append]
  exact head?_append_left (by decide)

theorem title_not_starts (title : String) :
    strStartsWith ("# " ++ title) "\n## Media" = false := by
  refine not_starts_media_of_head (c := '#') ?_ (by decide)
  rw [String.data_append]
  exact head?_append_left (by decide)

theorem engagement_not_starts (m : Engagement) :
    strStartsWith (formatEngagementMetrics m) "\n## Media" = false := by
  obtain ⟨t, ht⟩ : ∃ t, formatEngagementMetrics m = "\n## Engagement\n" ++ t := by
    unfold formatEngagementMetrics
    exact joinSep_cons_eq_append "\n" "\n## Engagement\n" _
  rw [ht]
  exact not_starts_media_engagement_body t

theorem head?_breaks_expand :
    ∀ (l : List Char) (x : Char),
      ((l.flatMap (fun c => if c = '\n' then [' ', ' ', '\n'] else [c])).head? = some x) →
      x ≠ '\n'
  | [], x => by simp
  | c :: cs, x => by
    simp only [List.flatMap_cons]
    by_cases hc : c = '\n'
    · rw [if_pos hc]
      intro h
      have h2 : x = ' ' := by
        have := h
        simp at this
        exact this.symm
      rw [h2]
      decide
    · rw [if_neg hc]
      intro h
      have h2 : x = c := by
        have := h
        simp at this
        exact this.symm
      rw [h2]
      simpa using hc

theorem contentPreserved_not_starts (text : String) :
    strStartsWith (formatContentPreserved text) "\n## Media" = false := by
  cases h : (formatContentPreserved text).data.head? with
  | none =>
    exact not_starts_media_of_empty (List.head?_eq_none_iff.mp h)
  | some c =>
    refine not_starts_media_of_head h ?_
    simp only [formatContentPreserved, data_mk] at h
    exact head?_breaks_expand _ c h

theorem contentSimple_not_starts (text : String) :
    strStartsWith (formatContentSimple text) "\n## Media" = false := by
  cases h : (formatContentSimple text).data.head? with
  | none =>
    exact not_starts_media_of_empty (List.head?_eq_none_iff.mp h)
  | some c =>
    refine not_starts_media_of_head h ?_
    simp only [formatContentSimple, data_mk] at h
    have hws := head?_jsTrimList_false h
    intro he
    rw [he] at hws
    exact absurd hws (by decide)

theorem media_starts (refs : List MediaReference) :
    strStartsWith (formatMediaReferences refs) "\n## Media" = true := by
  obtain ⟨t, ht⟩ : ∃ t, formatMediaReferences refs = "\n## Media\n" ++ t := by
    unfold formatMediaReferences
    exact joinSep_cons_eq_append "\n" "\n## Media\n" _
  rw [ht]
  unfold strStartsWith
  rw [List.isPrefixOf_iff_prefix, String.data_append]
  refine List.IsPrefix.trans ?_ (List.prefix_append _ _)
  decide

theorem media_ne_empty (refs : List MediaReference) :
    ¬(formatMediaReferences refs = "") := by
  obtain ⟨t, ht⟩ : ∃ t, formatMediaReferences refs = "\n## Media\n" ++ t := by
    unfold formatMediaReferences
    exact joinSep_cons_eq_append "\n" "\n## Media\n" _
  rw [ht]
  intro he
  have hd : (("\n## Media\n" ++ t)).data = ("" : String).data := by rw [he]
  rw [String.data_append] at hd
  simp at hd

/-! Lemmas about the collected media references and the media section. -/

theorem createWikiLink_eq (r : MediaReference) :
    createWikiLink r = "![[attachments/" ++ r.filename ++ "]]" := by
  unfold createWikiLink
  cases r.rtype <;>
    · show "![[" ++ ("attachments/" ++ r.filename) ++ "]]" = _
      apply String.ext
      simp [String.data_append]

theorem wiki_starts (r : MediaReference) :
    strStartsWith (createWikiLink r) "![[" = true := by
  rw [createWikiLink_eq]
  unfold strStartsWith
  rw [List.isPrefixOf_iff_prefix, String.data_append, String.data_append]
  rw [List.append_assoc]
  refine List.IsPrefix.trans ?_ (List.prefix_append _ _)
  decide

theorem caption_not_starts (c : String) :
    strStartsWith ("*" ++ c ++ "*\n") "![[" = false := by
  cases h : strStartsWith ("*" ++ c ++ "*\n") "![[" with
  | false => rfl
  | true =>
    exfalso
    have h2 := starts_head h (show ("![[").data.head? = some '!' from rfl)
    have h3 : (("*" ++ c ++ "*\n")).data.head? = some '*' := by
      rw [String.data_append, String.data_append]
      exact head?_append_left (head?_append_left (by decide))
    rw [h3] at h2
    exact absurd (Option.some_inj.mp h2) (by decide)

theorem mediaRefLines_countP :
    ∀ refs : List MediaReference,
      (mediaRefLines refs).countP (fun line => strStartsWith line "![[") = refs.length
  | [] => rfl
  | r :: rs => by
    show ((createWikiLink r ::
        (match r.caption with
         | some c => ["*" ++ c ++ "*\n"]
         | none => [])) ++ mediaRefLines rs).countP (fun line => strStartsWith line "![[")
      = rs.length + 1
    rw [List.countP_append, mediaRefLines_countP rs]
    cases hc : r.caption with
    | none => simp [List.countP_cons, wiki_starts r, Nat.add_comm]
    | some c =>
      simp [List.countP_cons, wiki_starts r, caption_not_starts c, Nat.add_comm]

theorem mediaRefLines_mem :
    ∀ {refs : List MediaReference} {line : String}, line ∈ mediaRefLines refs →
      (∃ r ∈ refs, line = createWikiLink r) ∨
      (∃ r ∈ refs, ∃ c, r.caption = some c ∧ line = "*" ++ c ++ "*\n")
  | [], line => by simp [mediaRefLines]
  | r :: rs, line => by
    intro h
    have h2 : line ∈ (createWikiLink r ::
        (match r.caption with
         | some c => ["*" ++ c ++ "*\n"]
         | none => [])) ++ mediaRefLines rs := h
    rcases List.mem_append.mp h2 with h3 | h3
    · rcases List.mem_cons.mp h3 with h4 | h4
      · exact Or.inl ⟨r, List.mem_cons_self .., h4⟩
      · cases hc : r.caption with
        | none =>
          rw [hc] at h4
          simp at h4
        | some c =>
          rw [hc] at h4
          simp only [List.mem_singleton] at h4
          exact Or.inr ⟨r, List.mem_cons_self .., c, hc, h4⟩
    · rcases mediaRefLines_mem h3 with ⟨q, hq, he⟩ | ⟨q, hq, c, hqc, he⟩
      · exact Or.inl ⟨q, List.mem_cons_of_mem _ hq, he⟩
      · exact Or.inr ⟨q, List.mem_cons_of_mem _ hq, c, hqc, he⟩

theorem collectMediaRefs_length (menv : MediaEnv) :
    ∀ (ms : List MediaItem) (i : Nat),
      (collectMediaRefs menv i ms).length
        = (List.range' i ms.length).countP
            (fun j => menv.download j && (menv.storeName j).isSome)
  | [], i => by simp [collectMediaRefs]
  | m :: rest, i => by
    rw [List.length_cons, List.range'_succ, List.countP_cons]
    rw [← collectMediaRefs_length menv rest (i + 1)]
    simp only [collectMediaRefs]
    by_cases hd : menv.download i = true
    · cases hs : menv.storeName i with
      | none => simp [hd, hs]
      | some fn => simp [hd, hs]
    · rw [Bool.not_eq_true] at hd
      simp [hd]

theorem collectMediaRefs_mem (menv : MediaEnv) :
    ∀ (ms : List MediaItem) (i : Nat) (r : MediaReference),
      r ∈ collectMediaRefs menv i ms →
      ∃ j, i ≤ j ∧ j < i + ms.length ∧ menv.download j = true ∧
        menv.storeName j = some r.filename
  | [], i, r => by simp [collectMediaRefs]
  | m :: rest, i, r => by
    intro h
    simp only [collectMediaRefs] at h
    by_cases hd : menv.download i = true
    · rw [if_pos hd] at h
      cases hs : menv.storeName i with
      | none =>
        rw [hs] at h
        obtain ⟨j, hj1, hj2, hj3⟩ := collectMediaRefs_mem menv rest (i + 1) r h
        exact ⟨j, by omega, by simp only [List.length_cons]; omega, hj3⟩
      | some fn =>
        rw [hs] at h
        rcases List.mem_cons.mp h with h1 | h1
        · refine ⟨i, le_refl i, by simp only [List.length_cons]; omega, hd, ?_⟩
          rw [hs, h1]
        · obtain ⟨j, hj1, hj2, hj3⟩ := collectMediaRefs_mem menv rest (i + 1) r h1
          exact ⟨j, by omega, by simp only [List.length_cons]; omega, hj3⟩
    · rw [if_neg hd] at h
      obtain ⟨j, hj1, hj2, hj3⟩ := collectMediaRefs_mem menv rest (i + 1) r h
      exact ⟨j, by omega, by simp only [List.length_cons]; omega, hj3⟩

theorem archiveMediaRefs_eq_collect (menv : MediaEnv) (post : PostData) :
    archiveMediaRefs menv post true = collectMediaRefs menv 0 post.media := by
  unfold archiveMediaRefs
  cases hm : post.media with
  | nil => simp [collectMediaRefs]
  | cons m rest => simp

theorem mem_assembleParts {part fmY title content ms es : String}
    (h : part ∈ assembleParts fmY title content ms es) :
    part = fmY ∨ part = "" ∨ part = "# " ++ title ∨ part = content ∨
      part = ms ∨ part = es := by
  unfold assembleParts at h
  rcases List.mem_append.mp h with h1 | h1
  · rcases List.mem_append.mp h1 with h2 | h2
    · simp only [List.mem_cons, List.not_mem_nil, or_false] at h2
      tauto
    · by_cases hms : ms = ""
      · rw [if_pos hms] at h2
        simp at h2
      · rw [if_neg hms] at h2
        simp only [List.mem_cons, List.not_mem_nil, or_false] at h2
        tauto
  · by_cases hes : es = ""
    · rw [if_pos hes] at h1
      simp at h1
    · rw [if_neg hes] at h1
      simp only [List.mem_cons, List.not_mem_nil, or_false] at h1
      tauto

theorem media_mem_assembleParts {fmY title content ms es : String} (h : ¬(ms = "")) :
    ms ∈ assembleParts fmY title content ms es := by
  unfold assembleParts
  rw [if_neg h]
  refine List.mem_append.mpr (Or.inl (List.mem_append.mpr (Or.inr ?_)))
  exact List.mem_cons_self ..

theorem convertParts_media_nonempty (cenv : ConvertEnv) (post : PostData)
    (refs : List MediaReference) (incEng preserve : Bool) (maxLen : Nat)
    (h : ¬(refs = [])) :
    convertParts cenv post refs incEng true preserve maxLen
      = assembleParts (formatFrontmatterYAML (generateFrontmatter cenv post))
          (generateTitle post.contentText maxLen)
          (if preserve then formatContentPreserved post.contentText
           else formatContentSimple post.contentText)
          (formatMediaReferences refs)
          (if incEng then
             match post.engagement with
             | some m => formatEngagementMetrics m
             | none => ""
           else "") := by
  have hlen : (true && decide (0 < refs.length)) = true := by
    simp [List.length_pos.mpr h]
  simp only [convertParts, hlen, if_true]

theorem convertParts_media_empty (cenv : ConvertEnv) (post : PostData)
    (incEng preserve : Bool) (maxLen : Nat) :
    convertParts cenv post [] incEng true preserve maxLen
      = assembleParts (formatFrontmatterYAML (generateFrontmatter cenv post))
          (generateTitle post.contentText maxLen)
          (if preserve then formatContentPreserved post.contentText
           else formatContentSimple post.contentText)
          ""
          (if incEng then
             match post.engagement with
             | some m => formatEngagementMetrics m
             | none => ""
           else "") := by
  simp [convertParts]

/-- C1: with media download enabled, the collected media references are in
bijection with the media items whose fetch and whose storage both
succeeded (their count equals the count of such indices, and every embed
line is a wiki link to the stored filename of such an item); the rendered
media section holds exactly one embed line per reference, and the emitted
document parts contain a part opening the Media section exactly when at
least one media item was fetched and stored. -/
theorem c1_archive_media_refs :
    ∀ (menv : MediaEnv) (cenv : ConvertEnv) (post : PostData)
      (incEng preserve : Bool) (maxLen : Nat),
      ((archiveMediaRefs menv post true).length
         = (List.range post.media.length).countP
             (fun j => menv.download j && (menv.storeName j).isSome)) ∧
      ((mediaRefLines (archiveMediaRefs menv post true)).countP
          (fun line => strStartsWith line "![[")
        = (archiveMediaRefs menv post true).length) ∧
      (∀ line ∈ mediaRefLines (archiveMediaRefs menv post true),
         strStartsWith line "![[" = true →
         ∃ r ∈ archiveMediaRefs menv post true,
           line = "![[attachments/" ++ r.filename ++ "]]" ∧
           ∃ j, j < post.media.length ∧ menv.download j = true ∧
             menv.storeName j = some r.filename) ∧
      ((∃ part ∈ convertParts cenv post (archiveMediaRefs menv post true) incEng true
            preserve maxLen, strStartsWith part "\n## Media" = true)
        ↔ ¬(archiveMediaRefs menv post true = [])) := by
  intro menv cenv post incEng preserve maxLen
  rw [archiveMediaRefs_eq_collect]
  refine ⟨?_, mediaRefLines_countP _, ?_, ?_⟩
  · rw [collectMediaRefs_length menv post.media 0, List.range_eq_range']
  · intro line hline hstart
    rcases mediaRefLines_mem hline with ⟨r, hr, he⟩ | ⟨r, hr, c, hrc, he⟩
    · obtain ⟨j, hj0, hj1, hj2, hj3⟩ := collectMediaRefs_mem menv post.media 0 r hr
      exact ⟨r, hr, by rw [he, createWikiLink_eq], j, by omega, hj2, hj3⟩
    · rw [he, caption_not_starts c] at hstart
      cases hstart
  · constructor
    · rintro ⟨part, hmem, hstart⟩ hrefs
      rw [hrefs, convertParts_media_empty] at hmem
      rcases mem_assembleParts hmem with h1 | h1 | h1 | h1 | h1 | h1
      · rw [h1, fmY_not_starts] at hstart
        cases hstart
      · rw [h1, not_starts_media_of_empty rfl] at hstart
        cases hstart
      · rw [h1, title_not_starts] at hstart
        cases hstart
      · cases preserve with
        | true =>
          rw [if_pos rfl] at h1
          rw [h1, contentPreserved_not_starts] at hstart
          cases hstart
        | false =>
          simp only [Bool.false_eq_true, if_false] at h1
          rw [h1, contentSimple_not_starts] at hstart
          cases hstart
      · rw [h1, not_starts_media_of_empty rfl] at hstart
        cases hstart
      · cases incEng with
        | false =>
          simp only [Bool.false_eq_true, if_false] at h1
          rw [h1, not_starts_media_of_empty rfl] at hstart
          cases hstart
        | true =>
          rw [if_pos rfl] at h1
          cases he : post.engagement with
          | none =>
            rw [he] at h1
            rw [h1, not_starts_media_of_empty rfl] at hstart
            cases hstart
          | some m =>
            rw [he] at h1
            rw [h1, engagement_not_starts] at hstart
            cases hstart
    · intro hrefs
      refine ⟨formatMediaReferences (collectMediaRefs menv 0 post.media), ?_, media_starts _⟩
      rw [convertParts_media_nonempty cenv post _ incEng preserve maxLen hrefs]
      exact media_mem_assembleParts (media_ne_empty _)

/-- C1 witness: a record with two media items of which only the first is
fetched and stored yields exactly one collected reference. -/
theorem c1_archive_media_refs_witness :
    (archiveMediaRefs
      ⟨fun i => decide (i = 0), fun i => if i = 0 then some "a.jpg" else none⟩
      ⟨"id", Platform.facebook, "Author", "text", none,
        [⟨MType.image, "u1", none⟩, ⟨MType.image, "u2", none⟩], "u", none, none⟩
      true).length = 1 := by
  have h := (c1_archive_media_refs
    ⟨fun i => decide (i = 0), fun i => if i = 0 then some "a.jpg" else none⟩
    ⟨"t", fun _ => "t", ⟨2025, 0, 1⟩⟩
    ⟨"id", Platform.facebook, "Author", "text", none,
      [⟨MType.image, "u1", none⟩, ⟨MType.image, "u2", none⟩], "u", none, none⟩
    true true 50).1
  exact h.trans (by decide)
